import Mathlib

/-!
# Hermes event bus

A shallow embedding of `include/hermes/Hermes.hpp` and theorems about it.

Conventions of the embedding.

* `uint16_t` / `size_t` values are natural numbers; where the code does
  arithmetic on a `uint16_t` (`registeredEventCount++`) the result is taken
  modulo `2 ^ 16`.
* `void*` is `Option Nat`: `none` is `nullptr`, `some a` an address (for a
  payload pointer, the byte offset inside the arena).
* A function pointer (`EventFn`, `EventMt`) is the natural number naming the
  code it points to; what that code does is given by an `Env`.
* `assert` is an `Except.error (Fault.assertion msg)`.  Dereferencing a null
  pointer or reading a record outside the `events` array is
  `Fault.undefined`.
* The store of the plain fields of `events[i]` is carried out wherever `i`
  points: a record stored past the end of the allocated array is kept after
  the array's records, with a callback pointer that points to no list.
* `std::list` is `List`; `push_back` appends at the end.  `std::unordered_map`
  is an association list read with `List.lookup`.
* The loops of `update` iterate lists that handlers may append to while the
  loop runs; an iterator is a position in the list as it is now.  The loops
  carry a bound on their steps (`fuel`); `Outcome.unfinished` means the bound
  was reached, not that the code stopped.
-/

deriving instance DecidableEq for Except

namespace Hermes

/-- The ways an operation can stop without returning. -/
inductive Fault where
  /-- An `assert` of the source failed; the text is the assertion message. -/
  | assertion (msg : String)
  /-- The code dereferenced a null pointer or read outside an array. -/
  | undefined (what : String)
  /-- The arena could not hand out the requested bytes. -/
  | arena (requested : Nat)
  deriving DecidableEq, Repr

/-- `using EventID = uint16_t`. -/
abbrev EventID := Nat

/-- `void*`: `none` is `nullptr`. -/
abbrev Ptr := Option Nat

/-- The raw object representation of one argument: `sizeof(T)` bytes. -/
abbrev Arg := List Nat

/-- `enum CallbackType` of `struct EventCallback`. -/
inductive CallbackType where
  | Function
  | Method
  deriving DecidableEq, Repr

/-- `struct EventCallback`; `callback` is the code pointer stored in the
`union Callback`. -/
structure EventCallback where
  callback : Nat
  type : CallbackType
  subscribedInstance : Ptr := none
  deriving DecidableEq, Repr

/-- `struct EventType`; `callbacks` is the pointer to the callback list,
`none` when it does not point to a list. -/
structure EventType where
  id : EventID := 0
  dataSize : Nat := 0
  callbacks : Option (List EventCallback) := none
  deriving DecidableEq, Repr

/-- `struct EventCall`. -/
structure EventCall where
  id : EventID
  data : Ptr := none
  deriving DecidableEq, Repr

/-- Modelled from the spec: `memory/StackAllocator.hpp` is not part of the
sources.  The spec describes it as a linear allocator handing out sequential
byte ranges from a fixed-size pool, with `push(size)`, `clear()`, `maxSize()`
and `usedSize()`. -/
structure StackAllocator where
  maxSize : Nat
  usedSize : Nat
  memory : List Nat
  deriving DecidableEq, Repr

namespace StackAllocator

/-- Modelled from the spec: `new StackAllocator(bufferSize)`, an empty pool of
`bufferSize` bytes. -/
def create (bufferSize : Nat) : StackAllocator :=
  { maxSize := bufferSize, usedSize := 0, memory := List.replicate bufferSize 0 }

/-- Modelled from the spec: `push(size)` hands out the next `size` bytes and
returns where they start; exceeding the byte budget is fatal. -/
def push (a : StackAllocator) (size : Nat) : Except Fault (Nat × StackAllocator) :=
  if a.usedSize + size ≤ a.maxSize then
    .ok (a.usedSize, { a with usedSize := a.usedSize + size })
  else
    .error (.arena size)

/-- Modelled from the spec: `clear()` resets the cursor to zero without
touching memory contents. -/
def clear (a : StackAllocator) : StackAllocator :=
  { a with usedSize := 0 }

/-- Modelled from the spec: `getMaxSize()`. -/
def getMaxSize (a : StackAllocator) : Nat := a.maxSize

/-- Modelled from the spec: `getCurrentUsedSize()`. -/
def getCurrentUsedSize (a : StackAllocator) : Nat := a.usedSize

end StackAllocator

end Hermes

/-- The members of `class Hermes`.  `events` is the pointer to the record
array (`none` is `nullptr`); records of the list at an index of
`maxAvailableEventTypeCount` or more lie outside the allocated array. -/
structure Hermes where
  events : Option (List Hermes.EventType) := none
  dataBuffer : Option Hermes.StackAllocator := none
  calls : List Hermes.EventCall := []
  eventMap : List (String × Hermes.EventID) := []
  registeredEventCount : Hermes.EventID := 0
  maxAvailableEventTypeCount : Hermes.EventID := 0
  deriving DecidableEq, Repr

namespace Hermes

/-- The instance before any call: `extern Hermes instance`, a default
constructed object with static storage. -/
def instance0 : Hermes := {}

/-- The store `events[i].id = id; events[i].dataSize = dataSize`.  Inside the
list the record keeps its callback pointer.  An index at or past the end of
the list is memory that no record was placed in: the store lands there all
the same, and the callback pointer of such a record points to no list. -/
def storeRecord (evs : List EventType) (i : Nat) (id : EventID) (dataSize : Nat) :
    List EventType :=
  if i < evs.length then
    evs.modify (fun e => { e with id := id, dataSize := dataSize }) i
  else
    evs ++ List.replicate (i - evs.length) (EventType.mk 0 0 none) ++ [EventType.mk id dataSize none]

/-- `eventMap[name] = id`. -/
def mapAssign (m : List (String × EventID)) (name : String) (id : EventID) :
    List (String × EventID) :=
  match m.lookup name with
  | some _ => m.map (fun p => if p.1 = name then (p.1, id) else p)
  | none => m ++ [(name, id)]

/-- `Hermes::initialize(eventTypeCount, bufferSize)`. -/
def initializeInstance (h : Hermes) (eventTypeCount bufferSize : Nat) : Hermes :=
  { h with
    maxAvailableEventTypeCount := eventTypeCount
    events := some (List.replicate eventTypeCount { callbacks := some [] })
    dataBuffer := some (StackAllocator.create bufferSize) }

/-- `Hermes::shutdown()`: the callback lists and the record array are
deleted, then both pointers are set to null.  The loop reads `events[i]` for
`i < maxAvailableEventTypeCount`, which needs a record array unless the bound
is zero. -/
def shutdown (h : Hermes) : Except Fault Hermes :=
  match h.events with
  | none =>
    if h.maxAvailableEventTypeCount = 0 then .ok { h with events := none, dataBuffer := none }
    else .error (.undefined "events is null")
  | some _ => .ok { h with events := none, dataBuffer := none }

/-- `Hermes::registerEvent(name, dataSize)`. -/
def registerEvent (h : Hermes) (name : String) (dataSize : Nat) :
    Except Fault (EventID × Hermes) :=
  if h.registeredEventCount ≤ h.maxAvailableEventTypeCount then
    match h.eventMap.lookup name with
    | some id => .ok (id, h)
    | none =>
      match h.events with
      | none => .error (.undefined "events is null")
      | some evs =>
        let id := h.registeredEventCount
        .ok (id,
          { h with
            events := some (storeRecord evs id id dataSize)
            registeredEventCount := (id + 1) % 2 ^ 16
            eventMap := mapAssign h.eventMap name id })
  else
    .error (.assertion "event type overflow")

/-- `Hermes::getEventIndex(name)`. -/
def getEventIndex (h : Hermes) (name : String) : Except Fault (EventID × Hermes) :=
  match h.eventMap.lookup name with
  | some id => .ok (id, h)
  | none => .error (.assertion "unknown event name")

/-- `Hermes::getRegisteredEventCount()`. -/
def getRegisteredEventCount (h : Hermes) : EventID := h.registeredEventCount

/-- `Hermes::getMaxEventTypeCount()`. -/
def getMaxEventTypeCount (h : Hermes) : EventID := h.maxAvailableEventTypeCount

/-- `Hermes::getMaxDataBufferSize()`. -/
def getMaxDataBufferSize (h : Hermes) : Except Fault Nat :=
  match h.dataBuffer with
  | some b => .ok b.getMaxSize
  | none => .error (.undefined "dataBuffer is null")

/-- `Hermes::getCurrentlyUsedDataBufferSize()`. -/
def getCurrentlyUsedDataBufferSize (h : Hermes) : Except Fault Nat :=
  match h.dataBuffer with
  | some b => .ok b.getCurrentUsedSize
  | none => .error (.undefined "dataBuffer is null")

/-! ## Marshaller -/

/-- `memcpy(ptr, &t, sizeof(T))` into the arena memory at address `a`. -/
def writeBytes (mem : List Nat) (a : Nat) (bytes : Arg) : List Nat :=
  if a + bytes.length ≤ mem.length then
    mem.take a ++ bytes ++ mem.drop (a + bytes.length)
  else mem

/-- `*static_cast<T*>(data)` for a `T` of `n` bytes at address `a`; `none`
when the range leaves the arena memory. -/
def readBytes (mem : List Nat) (a n : Nat) : Option Arg :=
  if a + n ≤ mem.length then some ((mem.drop a).take n) else none

/-- `Hermes::__convert(data, offset, maxSize, t, args...)`, both overloads:
the recursion ends at the overload with a single `T t`.  The result is the
arena memory after the copies; the pointer returned is `data`. -/
def __convert (mem : List Nat) (data offset maxSize : Nat) (t : Arg) :
    List Arg → Except Fault (List Nat)
  | [] =>
    if offset + t.length ≤ maxSize then .ok (writeBytes mem (data + offset) t)
    else .error (.assertion "data overflow")
  | a :: args =>
    if offset + t.length ≤ maxSize then
      __convert (writeBytes mem (data + offset) t) data (offset + t.length) maxSize a args
    else .error (.assertion "data overflow")

/-- `Hermes::_convert(size, args...)`. -/
def _convert (h : Hermes) (size : Nat) (t : Arg) (args : List Arg) :
    Except Fault (Ptr × Hermes) :=
  match h.dataBuffer with
  | none => .error (.undefined "dataBuffer is null")
  | some buf =>
    match buf.push size with
    | .error f => .error f
    | .ok (ptr, buf1) =>
      match __convert buf1.memory ptr 0 size t args with
      | .error f => .error f
      | .ok mem => .ok (some ptr, { h with dataBuffer := some { buf1 with memory := mem } })

/-- `Hermes::convertFromVoid(ptr, offset, t, args...)`, both overloads, for
outputs of `size :: sizes` bytes: the values read, in order. -/
def convertFromVoid (mem : List Nat) (ptr offset : Nat) (size : Nat) :
    List Nat → Except Fault (List Arg)
  | [] =>
    match readBytes mem (ptr + offset) size with
    | some v => .ok [v]
    | none => .error (.undefined "read outside the arena")
  | n :: sizes =>
    match readBytes mem (ptr + offset) size with
    | some v =>
      match convertFromVoid mem ptr (offset + size) n sizes with
      | .ok vs => .ok (v :: vs)
      | .error f => .error f
    | none => .error (.undefined "read outside the arena")

/-- `Hermes::convert(ptr, args...)` for outputs of `size :: sizes` bytes. -/
def convert (h : Hermes) (ptr : Ptr) (size : Nat) (sizes : List Nat) :
    Except Fault (List Arg) :=
  match ptr, h.dataBuffer with
  | some p, some buf => convertFromVoid buf.memory p 0 size sizes
  | none, _ => .error (.undefined "payload pointer is null")
  | _, none => .error (.undefined "dataBuffer is null")

/-! ## Triggering and subscribing -/

/-- `Hermes::_triggerEvent(eventID, data)`. -/
def _triggerEvent (h : Hermes) (eventID : EventID) (data : Ptr) : Except Fault Hermes :=
  if eventID < h.registeredEventCount then
    .ok { h with calls := h.calls ++ [{ id := eventID, data := data }] }
  else
    .error (.assertion "event type overflow")

/-- The read `instance.events[id]`. -/
def eventAt (h : Hermes) (id : EventID) : Except Fault EventType :=
  match h.events with
  | none => .error (.undefined "events is null")
  | some evs =>
    match evs.get? id with
    | some e => .ok e
    | none => .error (.undefined "events[id] outside the array")

/-- `Hermes::triggerEvent(id, t, args...)`. -/
def triggerEvent (h : Hermes) (id : EventID) (t : Arg) (args : List Arg) :
    Except Fault Hermes :=
  match eventAt h id with
  | .error f => .error f
  | .ok event =>
    match _convert h event.dataSize t args with
    | .error f => .error f
    | .ok (data, h1) => _triggerEvent h1 id data

/-- `Hermes::triggerEvent(id)`. -/
def triggerEvent0 (h : Hermes) (id : EventID) : Except Fault Hermes :=
  _triggerEvent h id none

/-- The statement `event.callbacks->push_back(cb)` on `events[id]`. -/
def pushCallback (h : Hermes) (id : EventID) (cb : EventCallback) : Except Fault Hermes :=
  match h.events with
  | none => .error (.undefined "events is null")
  | some evs =>
    match evs.get? id with
    | none => .error (.undefined "events[id] outside the array")
    | some e =>
      match e.callbacks with
      | none => .error (.undefined "callbacks is null")
      | some cbs =>
        .ok { h with events := some (evs.set id { e with callbacks := some (cbs ++ [cb]) }) }

/-- `Hermes::subscribe(id, callback)` for an `EventFn`. -/
def subscribe (h : Hermes) (id : EventID) (callback : Nat) : Except Fault Hermes :=
  if h.registeredEventCount ≥ id then
    pushCallback h id { callback := callback, type := .Function }
  else
    .error (.assertion "event type overflow")

set_option linter.unusedVariables false in
/-- `Hermes::subscribe(id, subscribedInstance, callback)` for an `EventMt`.
The source assigns `cb.callback.method` and `cb.type` only. -/
def subscribeMethod (h : Hermes) (id : EventID) (subscribedInstance : Ptr) (callback : Nat) :
    Except Fault Hermes :=
  if h.registeredEventCount ≥ id then
    pushCallback h id { callback := callback, type := .Method }
  else
    .error (.assertion "event type overflow")


/-! ## Handlers

A handler is code of the host program.  It may call the public interface and
keeps state of its own (`σ`).  A `Script` is the sequence of interface calls
one invocation makes, each continuation receiving what the call returned,
ending with the `handled` flag.  Calls of `initialize`, `shutdown` and
`update` from inside a handler destroy the lists `update` is iterating and are
not part of a script. -/

/-- A call of the public interface. -/
inductive Call where
  | registerEvent (name : String) (dataSize : Nat)
  | getEventIndex (name : String)
  | triggerEvent (id : EventID) (t : Arg) (args : List Arg)
  | triggerEvent0 (id : EventID)
  | subscribe (id : EventID) (callback : Nat)
  | subscribeMethod (id : EventID) (subscribedInstance : Ptr) (callback : Nat)
  | convert (ptr : Ptr) (size : Nat) (sizes : List Nat)
  | getRegisteredEventCount
  | getMaxEventTypeCount
  | getMaxDataBufferSize
  | getCurrentlyUsedDataBufferSize
  deriving DecidableEq, Repr

/-- What a call of the public interface returns. -/
inductive Reply where
  | unit
  | number (n : Nat)
  | values (vs : List Arg)
  deriving DecidableEq, Repr

/-- An observation of a run, kept beside the program state. -/
inductive Obs where
  /-- `registerEvent(name, _)` returned `id`. -/
  | registered (name : String) (id : EventID)
  /-- `triggerEvent(id, ...)` returned. -/
  | triggered (id : EventID)
  /-- `update` took this call from the queue. -/
  | dispatch (c : EventCall)
  /-- `callback.function(data)` was called and returned `handled`. -/
  | function (callback : Nat) (data : Ptr) (handled : Bool)
  /-- `callback.method(receiver, data)` was called and returned `handled`. -/
  | method (callback : Nat) (receiver : Ptr) (data : Ptr) (handled : Bool)
  deriving DecidableEq, Repr

/-- The effect of a call of the public interface. -/
def Call.exec : Call → Hermes → Except Fault (Reply × Hermes)
  | .registerEvent name dataSize, h =>
    match Hermes.registerEvent h name dataSize with
    | .ok (id, h1) => .ok (.number id, h1)
    | .error f => .error f
  | .getEventIndex name, h =>
    match Hermes.getEventIndex h name with
    | .ok (id, h1) => .ok (.number id, h1)
    | .error f => .error f
  | .triggerEvent id t args, h =>
    match Hermes.triggerEvent h id t args with
    | .ok h1 => .ok (.unit, h1)
    | .error f => .error f
  | .triggerEvent0 id, h =>
    match Hermes.triggerEvent0 h id with
    | .ok h1 => .ok (.unit, h1)
    | .error f => .error f
  | .subscribe id callback, h =>
    match Hermes.subscribe h id callback with
    | .ok h1 => .ok (.unit, h1)
    | .error f => .error f
  | .subscribeMethod id subscribedInstance callback, h =>
    match Hermes.subscribeMethod h id subscribedInstance callback with
    | .ok h1 => .ok (.unit, h1)
    | .error f => .error f
  | .convert ptr size sizes, h =>
    match Hermes.convert h ptr size sizes with
    | .ok vs => .ok (.values vs, h)
    | .error f => .error f
  | .getRegisteredEventCount, h => .ok (.number h.getRegisteredEventCount, h)
  | .getMaxEventTypeCount, h => .ok (.number h.getMaxEventTypeCount, h)
  | .getMaxDataBufferSize, h =>
    match h.getMaxDataBufferSize with
    | .ok n => .ok (.number n, h)
    | .error f => .error f
  | .getCurrentlyUsedDataBufferSize, h =>
    match h.getCurrentlyUsedDataBufferSize with
    | .ok n => .ok (.number n, h)
    | .error f => .error f

/-- What a returned call adds to the observations. -/
def Call.obs : Call → Reply → List Obs
  | .registerEvent name _, .number id => [.registered name id]
  | .triggerEvent id _ _, _ => [.triggered id]
  | .triggerEvent0 id, _ => [.triggered id]
  | _, _ => []

/-- One invocation of a handler. -/
inductive Script (σ : Type) where
  | done (handled : Bool) (user : σ)
  | call (c : Call) (k : Reply → Script σ)

/-- The code behind the function pointers of the host program. -/
structure Env (σ : Type) where
  /-- An `EventFn`, `bool(*)(void*)`: the data pointer. -/
  function : Nat → Ptr → σ → Script σ
  /-- An `EventMt`, `bool(*)(void*, void*)`: the instance and the data pointer. -/
  method : Nat → Ptr → Ptr → σ → Script σ

/-- The program state: the `Hermes` instance, the state of the host program,
and the observations made so far. -/
structure World (σ : Type) where
  hermes : Hermes
  user : σ
  log : List Obs := []
  deriving DecidableEq, Repr

/-- The result of a loop run with a bound on its steps. -/
inductive Outcome (α : Type) where
  | returned (a : α)
  | fatal (f : Fault)
  | unfinished
  deriving DecidableEq, Repr

/-- Run one invocation of a handler. -/
def Script.run {σ : Type} : Script σ → World σ → Except Fault (Bool × World σ)
  | .done handled user, w => .ok (handled, { w with user := user })
  | .call c k, w =>
    match c.exec w.hermes with
    | .error f => .error f
    | .ok (r, h1) => (k r).run { w with hermes := h1, log := w.log ++ c.obs r }

/-- `Hermes::callCallback(callback, data)`. -/
def callCallback {σ : Type} (env : Env σ) (callback : EventCallback) (data : Ptr)
    (w : World σ) : Except Fault (Bool × World σ) :=
  match callback.type with
  | .Function =>
    match (env.function callback.callback data w.user).run w with
    | .error f => .error f
    | .ok (handled, w1) =>
      .ok (handled, { w1 with log := w1.log ++ [.function callback.callback data handled] })
  | .Method =>
    match (env.method callback.callback callback.subscribedInstance data w.user).run w with
    | .error f => .error f
    | .ok (handled, w1) =>
      .ok (handled,
        { w1 with
          log := w1.log ++ [.method callback.callback callback.subscribedInstance data handled] })

/-- The list `*instance.events[id].callbacks`. -/
def callbacksOf (h : Hermes) (id : EventID) : Except Fault (List EventCallback) :=
  match eventAt h id with
  | .error f => .error f
  | .ok event =>
    match event.callbacks with
    | none => .error (.undefined "callbacks is null")
    | some cbs => .ok cbs

/-- The inner loop of `update`,
`for (auto &callback : *event.callbacks) if (callCallback(callback, c.data)) break;`
with the iterator at position `j` of the list as it is now. -/
def dispatch {σ : Type} (env : Env σ) : Nat → EventCall → Nat → World σ → Outcome (World σ)
  | 0, _, _, _ => .unfinished
  | fuel + 1, c, j, w =>
    match callbacksOf w.hermes c.id with
    | .error f => .fatal f
    | .ok cbs =>
      match cbs.get? j with
      | none => .returned w
      | some callback =>
        match callCallback env callback c.data w with
        | .error f => .fatal f
        | .ok (true, w1) => .returned w1
        | .ok (false, w1) => dispatch env fuel c (j + 1) w1

/-- The outer loop of `update`, `for (auto &c : instance.calls)`, with the
iterator at position `i` of the queue as it is now. -/
def drain {σ : Type} (env : Env σ) : Nat → Nat → World σ → Outcome (World σ)
  | 0, _, _ => .unfinished
  | fuel + 1, i, w =>
    match w.hermes.calls.get? i with
    | none => .returned w
    | some c =>
      match dispatch env fuel c 0 { w with log := w.log ++ [.dispatch c] } with
      | .returned w1 => drain env fuel (i + 1) w1
      | .fatal f => .fatal f
      | .unfinished => .unfinished

/-- The two statements after the loops of `update`:
`instance.calls.clear(); instance.dataBuffer->clear();`. -/
def clearAll (h : Hermes) : Except Fault Hermes :=
  match h.dataBuffer with
  | none => .error (.undefined "dataBuffer is null")
  | some buf => .ok { h with calls := [], dataBuffer := some buf.clear }

/-- `Hermes::update()`. -/
def update {σ : Type} (env : Env σ) (fuel : Nat) (w : World σ) : Outcome (World σ) :=
  match drain env fuel 0 w with
  | .returned w1 =>
    match clearAll w1.hermes with
    | .ok h => .returned { w1 with hermes := h }
    | .error f => .fatal f
  | .fatal f => .fatal f
  | .unfinished => .unfinished


/-! ## Sequences of registrations -/

/-- A sequence of `registerEvent(name, dataSize)` calls; the ids returned, in
order. -/
def registerAll (h : Hermes) : List (String × Nat) → Except Fault (List EventID × Hermes)
  | [] => .ok ([], h)
  | (name, dataSize) :: rest =>
    match registerEvent h name dataSize with
    | .error f => .error f
    | .ok (id, h1) =>
      match registerAll h1 rest with
      | .error f => .error f
      | .ok (ids, h2) => .ok (id :: ids, h2)

/-- The distinct names of a sequence of registrations, in order of first
registration, after the names `seen`. -/
def distinctNames (seen : List String) : List String → List String
  | [] => seen
  | name :: rest =>
    if name ∈ seen then distinctNames seen rest else distinctNames (seen ++ [name]) rest

/-- What a run of registrations from an empty registry keeps true: the names
`seen` were registered in this order and hold the ids `0, 1, ...`. -/
def Sequential (h : Hermes) (seen : List String) : Prop :=
  h.events.isSome = true ∧ h.registeredEventCount = seen.length ∧
    ∀ x, h.eventMap.lookup x = if x ∈ seen then some (seen.indexOf x) else none

/-- The object representation of the integer `v`, `0 ≤ v < 256 ^ width`, in a
type of `width` bytes on a little-endian machine. -/
def littleEndian (width v : Nat) : Arg :=
  (List.range width).map (fun i => v / 256 ^ i % 256)

/-! ## Reading the observations -/

/-- The observation `callCallback(callback, data)` leaves when the handler
returns `handled`. -/
def EventCallback.obs (callback : EventCallback) (data : Ptr) (handled : Bool) : Obs :=
  match callback.type with
  | .Function => .function callback.callback data handled
  | .Method => .method callback.callback callback.subscribedInstance data handled

/-- The handler invocations among the observations, in order. -/
def invocations (log : List Obs) : List Obs :=
  log.filter (fun o =>
    match o with
    | .function _ _ _ => true
    | .method _ _ _ _ => true
    | _ => false)

/-- The calls `update` took from the queue, in order. -/
def dispatched (log : List Obs) : List EventCall :=
  log.filterMap (fun o =>
    match o with
    | .dispatch c => some c
    | _ => none)

/-- The event ids of the `triggerEvent` calls that returned, in order. -/
def triggered (log : List Obs) : List EventID :=
  log.filterMap (fun o =>
    match o with
    | .triggered id => some id
    | _ => none)

/-- The names passed to `registerEvent` with the ids it returned, in order. -/
def registrations (log : List Obs) : List (String × EventID) :=
  log.filterMap (fun o =>
    match o with
    | .registered name id => some (name, id)
    | _ => none)

/-! ## Classes of handlers -/

/-- Every interface call the script can make satisfies `allowed`. -/
def Script.Uses {σ : Type} (allowed : Call → Prop) : Script σ → Prop
  | .done _ _ => True
  | .call c k => allowed c ∧ ∀ r, (k r).Uses allowed

/-- Every handler of the host program makes only calls satisfying `allowed`. -/
def Env.Uses {σ : Type} (env : Env σ) (allowed : Call → Prop) : Prop :=
  (∀ callback data user, (env.function callback data user).Uses allowed) ∧
    ∀ callback receiver data user, (env.method callback receiver data user).Uses allowed

/-- The call neither triggers an event nor subscribes a handler. -/
def Call.quiet : Call → Prop
  | .triggerEvent _ _ _ => False
  | .triggerEvent0 _ => False
  | .subscribe _ _ => False
  | .subscribeMethod _ _ _ => False
  | _ => True

/-! ## Dispatch as the specification words it

Section 4.4: for a pending call, invoke its event's callbacks strictly in
subscription order; the first callback to return `true` stops further
invocation for that call only; later calls in the queue start from the first
subscriber again.  Section 4.3: the queue is iterated in the order calls were
appended. -/

/-- Turn a result into the outcome of a loop. -/
def Outcome.ofExcept {α : Type} : Except Fault α → Outcome α
  | .ok a => .returned a
  | .error f => .fatal f

/-- The callbacks of a list invoked in order until one reports `handled`. -/
def invokeInOrder {σ : Type} (env : Env σ) (data : Ptr) :
    List EventCallback → World σ → Except Fault (World σ)
  | [], w => .ok w
  | callback :: rest, w =>
    match callCallback env callback data w with
    | .error f => .error f
    | .ok (true, w1) => .ok w1
    | .ok (false, w1) => invokeInOrder env data rest w1

/-- The calls of a list dispatched in order, each to the callbacks of its
event from the first one. -/
def flushInOrder {σ : Type} (env : Env σ) : List EventCall → World σ → Except Fault (World σ)
  | [], w => .ok w
  | c :: rest, w =>
    match callbacksOf w.hermes c.id with
    | .error f => .error f
    | .ok cbs =>
      match invokeInOrder env c.data cbs { w with log := w.log ++ [.dispatch c] } with
      | .error f => .error f
      | .ok w1 => flushInOrder env rest w1

/-! ## Programs of the host -/

/-- A statement of the host program outside any handler. -/
inductive Op where
  | init (eventTypeCount bufferSize : Nat)
  | shutdown
  | call (c : Call)
  | update (fuel : Nat)
  deriving DecidableEq, Repr

/-- Run one statement of the host program. -/
def Op.run {σ : Type} (env : Env σ) : Op → World σ → Outcome (World σ)
  | .init eventTypeCount bufferSize, w =>
    .returned { w with hermes := initializeInstance w.hermes eventTypeCount bufferSize }
  | .shutdown, w =>
    match Hermes.shutdown w.hermes with
    | .ok h => .returned { w with hermes := h }
    | .error f => .fatal f
  | .call c, w =>
    match c.exec w.hermes with
    | .ok (r, h) => .returned { w with hermes := h, log := w.log ++ c.obs r }
    | .error f => .fatal f
  | .update fuel, w => Hermes.update env fuel w

/-- Run the statements of the host program in order. -/
def runOps {σ : Type} (env : Env σ) : List Op → World σ → Outcome (World σ)
  | [], w => .returned w
  | op :: rest, w =>
    match op.run env w with
    | .returned w1 => runOps env rest w1
    | .fatal f => .fatal f
    | .unfinished => .unfinished

/-- The program state before the host program starts. -/
def World.start {σ : Type} (user : σ) : World σ :=
  { hermes := instance0, user := user, log := [] }

/-! ## What has happened since an earlier state -/

/-- Relative to an earlier instance `h0` with observations `log0`: `update`
took no call from the queue since, the queue grew at its end by exactly the
calls triggered since, and every callback list grew at its end only. -/
def Since (h0 : Hermes) (log0 : List Obs) (h : Hermes) (log : List Obs) : Prop :=
  ∃ extra new, log = log0 ++ extra ∧ dispatched extra = [] ∧
    h.calls = h0.calls ++ new ∧ triggered extra = new.map (fun c => c.id) ∧
    ∀ id cbs, callbacksOf h0 id = .ok cbs → ∃ more, callbacksOf h id = .ok (cbs ++ more)

/-- No handler was invoked between the observations `log0` and `log`. -/
def NoInvocationSince (log0 log : List Obs) : Prop :=
  ∃ extra, log = log0 ++ extra ∧ invocations extra = []

/-- Relative to an earlier instance `h0`: the queue is the same and every
callback list that could be read then reads the same now. -/
def SameSubscriptions (h0 h : Hermes) : Prop :=
  h.calls = h0.calls ∧ ∀ id cbs, callbacksOf h0 id = .ok cbs → callbacksOf h id = .ok cbs

/-- What `update` computes when the queue is dispatched as the specification
words it, followed by the clearing of the queue and the arena. -/
def updateInOrder {σ : Type} (env : Env σ) (w : World σ) : Outcome (World σ) :=
  match flushInOrder env w.hermes.calls w with
  | .error f => .fatal f
  | .ok w1 =>
    match clearAll w1.hermes with
    | .ok h => .returned { w1 with hermes := h }
    | .error f => .fatal f

/-- The name map holds exactly the names passed to `registerEvent`, each with
the id `registerEvent` returned for it. -/
def Registered (h : Hermes) (log : List Obs) : Prop :=
  ∀ name id, (name, id) ∈ registrations log ↔ h.eventMap.lookup name = some id

/-! ## An example host program -/

/-- Handlers that count their invocations in the host state.  The function
with pointer 1 reports `handled`, every other function does not; a method
reports whether its receiver is the instance at address 5. -/
def exampleEnv : Env Nat where
  function := fun callback _ user => .done (callback == 1) (user + 1)
  method := fun _ receiver _ user => .done (receiver == some 5) (user + 1)

/-- The scenario of the specification: one event with a payload of an `int32`
and a `uint16`, three subscribers of which the second reports `handled`, and
two triggers. -/
def exampleSetup : List Op :=
  [.init 2 16, .call (.registerEvent "Damage" 6),
   .call (.subscribe 0 0), .call (.subscribe 0 1), .call (.subscribe 0 0),
   .call (.triggerEvent 0 (littleEndian 4 50) [littleEndian 2 7]),
   .call (.triggerEvent 0 (littleEndian 4 60) [littleEndian 2 8])]

/-- One event without payload, subscribed to by a method of the instance at
address 5, and one trigger. -/
def methodSetup : List Op :=
  [.init 1 0, .call (.registerEvent "Tick" 0), .call (.subscribeMethod 0 (some 5) 7),
   .call (.triggerEvent0 0)]

/-- The data pointer a handler invocation received. -/
def Obs.payload : Obs → Option Ptr
  | .function _ data _ => some data
  | .method _ _ data _ => some data
  | _ => none

/-- No arena bytes are in use while the queue is empty. -/
def ArenaIdle (h : Hermes) : Prop :=
  ∀ buf, h.dataBuffer = some buf → h.calls = [] → buf.usedSize = 0

/-! ## Payload layouts -/

/-- `class Hermes::DataLayout`: the member `uint16_t size`. -/
structure DataLayout where
  size : Nat := 0
  deriving DecidableEq, Repr

/-- `DataLayout::add<T>()`, `size += sizeof(T)` on a `uint16_t`. -/
def DataLayout.add (layout : DataLayout) (sizeofT : Nat) : DataLayout :=
  { layout with size := (layout.size + sizeofT) % 2 ^ 16 }

/-- `DataLayout::add<T, A, Args...>()`, ending with `add<T>()`, for types of
the given sizes. -/
def DataLayout.addAll (layout : DataLayout) (sizeofT : Nat) : List Nat → DataLayout
  | [] => layout.add sizeofT
  | sizeofA :: sizes => (layout.add sizeofT).addAll sizeofA sizes

/-- `DataLayout::construct<T, Args...>()` for types of the given sizes. -/
def DataLayout.construct (sizeofT : Nat) (sizes : List Nat) : DataLayout :=
  ({} : DataLayout).addAll sizeofT sizes

/-- `Hermes::registerEvent(name, data)` for a `DataLayout`. -/
def registerEventLayout (h : Hermes) (name : String) (data : DataLayout) :
    Except Fault (EventID × Hermes) :=
  registerEvent h name data.size

/-! ## Example handlers that subscribe or trigger -/

/-- The call does not trigger an event. -/
def Call.noTrigger : Call → Prop
  | .triggerEvent _ _ _ => False
  | .triggerEvent0 _ => False
  | _ => True

/-- Handlers of which function 0 subscribes function 1 to event 0 the first
time any handler runs; no handler reports `handled`. -/
def subscribingEnv : Env Nat where
  function := fun callback _ user =>
    if callback = 0 ∧ user = 0 then .call (.subscribe 0 1) (fun _ => .done false 1)
    else .done false (user + 1)
  method := fun _ _ _ user => .done false (user + 1)

/-- Handlers of which every function triggers event 0 again and returns
`false`. -/
def loopEnv : Env Nat where
  function := fun _ _ user => .call (.triggerEvent0 0) (fun _ => .done false user)
  method := fun _ _ _ user => .done false user

/-- Handlers of which every function subscribes function 0 to event 0 again
and returns `false`; none triggers an event. -/
def selfSubscribingEnv : Env Nat where
  function := fun _ _ user => .call (.subscribe 0 0) (fun _ => .done false user)
  method := fun _ _ _ user => .done false user

/-- One event without payload, function 0 subscribed, one trigger. -/
def tickSetup : List Op :=
  [.init 1 0, .call (.registerEvent "Tick" 0), .call (.subscribe 0 0), .call (.triggerEvent0 0)]

/-- The state of the livelock example when the outer loop of `update` is at
position `i`: the queue holds `i + 1` calls of event 0, so the call at
position `i` is still to be dispatched, and event 0 has the one subscriber. -/
def Livelocked (i : Nat) (h : Hermes) : Prop :=
  h.calls = List.replicate (i + 1) { id := 0, data := none } ∧
    callbacksOf h 0 = .ok [{ callback := 0, type := .Function }] ∧
    0 < h.registeredEventCount

/-- The state of the self-subscribing example when the inner loop of `update`
is at position `j`: the callback list of event 0 holds `j + 1` entries, so
the entry at position `j` is still to be invoked. -/
def Resubscribed (j : Nat) (h : Hermes) : Prop :=
  h.events = some
    [EventType.mk 0 0 (some (List.replicate (j + 1) { callback := 0, type := .Function }))]

/-! ## The callbacks of one call, as the specification words it

Section 4.4 once more, keeping whether a callback reported `handled`. -/

/-- The callbacks of a list invoked in order until one reports `handled`,
together with whether one did: `true` when the last callback invoked reported
`handled`, `false` when every callback of the list was invoked and none
did. -/
def invokeList {σ : Type} (env : Env σ) (data : Ptr) :
    List EventCallback → World σ → Except Fault (Bool × World σ)
  | [], w => .ok (false, w)
  | callback :: rest, w =>
    match callCallback env callback data w with
    | .error f => .error f
    | .ok (true, w1) => .ok (true, w1)
    | .ok (false, w1) => invokeList env data rest w1

/-- From position `j` on, the callback list of event `id` holds the callbacks
`rest`, in that order, possibly followed by more. -/
def SubscribedAt (h : Hermes) (id : EventID) (j : Nat) (rest : List EventCallback) : Prop :=
  ∃ l, callbacksOf h id = .ok l ∧ rest <+: l.drop j

/-! ## The live queue, as the specification words it

Section 4.3: `update` iterates the queue strictly in the order calls were
appended, including the calls appended by callbacks invoked during this very
flush; section 4.4: each call goes to the callbacks of its event in
subscription order until one reports `handled`. -/

theorem lookup_mapAssign_self (m : List (String × EventID)) (name : String) (id : EventID)
    (hnew : m.lookup name = none) : (mapAssign m name id).lookup name = some id := by
  simp [mapAssign, hnew, List.lookup_append, List.lookup]

theorem lookup_mapAssign_other (m : List (String × EventID)) (name x : String) (id : EventID)
    (hnew : m.lookup name = none) (hx : x ≠ name) :
    (mapAssign m name id).lookup x = m.lookup x := by
  have hb : (x == name) = false := by simpa using hx
  simp [mapAssign, hnew, List.lookup_append, List.lookup, hb]

/-- A registration of a name the map holds returns the stored id and changes
nothing. -/
theorem registerEvent_known (h : Hermes) (name : String) (dataSize : Nat) (id : EventID)
    (hcount : h.registeredEventCount ≤ h.maxAvailableEventTypeCount)
    (hknown : h.eventMap.lookup name = some id) :
    registerEvent h name dataSize = .ok (id, h) := by
  simp [registerEvent, hcount, hknown]

/-- A registration of a new name stores the record at index
`registeredEventCount`, returns that index and counts it. -/
theorem registerEvent_new (h : Hermes) (name : String) (dataSize : Nat) (evs : List EventType)
    (hcount : h.registeredEventCount ≤ h.maxAvailableEventTypeCount)
    (hnew : h.eventMap.lookup name = none) (hev : h.events = some evs) :
    registerEvent h name dataSize = .ok (h.registeredEventCount,
      { h with
        events := some (storeRecord evs h.registeredEventCount h.registeredEventCount dataSize)
        registeredEventCount := (h.registeredEventCount + 1) % 2 ^ 16
        eventMap := mapAssign h.eventMap name h.registeredEventCount }) := by
  simp [registerEvent, hcount, hnew, hev]

/-- C6, as amended.  In a state with the record array allocated and no more
events counted than the capacity, for a name that is registered already or for
which a record is still free, `registerEvent(name, s1)` followed by
`registerEvent(name, s2)` returns the same id both times and the second call
leaves the whole state, the registered count and the name map included,
unchanged. -/
theorem registerEvent_idempotent (h : Hermes) (name : String) (s1 s2 : Nat)
    (hinit : h.events.isSome = true)
    (hcount : h.registeredEventCount ≤ h.maxAvailableEventTypeCount)
    (hroom : (h.eventMap.lookup name).isSome = true ∨
      h.registeredEventCount < h.maxAvailableEventTypeCount) :
    ∃ id h1, registerEvent h name s1 = .ok (id, h1) ∧
      registerEvent h1 name s2 = .ok (id, h1) := by
  cases hk : h.eventMap.lookup name with
  | some id =>
    exact ⟨id, h, registerEvent_known h name s1 id hcount hk,
      registerEvent_known h name s2 id hcount hk⟩
  | none =>
    have hlt : h.registeredEventCount < h.maxAvailableEventTypeCount := by
      rcases hroom with hr | hr
      · simp [hk] at hr
      · exact hr
    obtain ⟨evs, hev⟩ := Option.isSome_iff_exists.mp hinit
    refine ⟨_, _, registerEvent_new h name s1 evs hcount hk hev, ?_⟩
    apply registerEvent_known
    · show (h.registeredEventCount + 1) % 2 ^ 16 ≤ h.maxAvailableEventTypeCount
      exact le_trans (Nat.mod_le _ _) hlt
    · exact lookup_mapAssign_self _ _ _ hk

/-- C6 as amended, on a registry with room left. -/
theorem registerEvent_idempotent_witness :
    ∃ id h1, registerEvent (initializeInstance instance0 2 8) "Damage" 6 = .ok (id, h1) ∧
      registerEvent h1 "Damage" 4 = .ok (id, h1) :=
  registerEvent_idempotent (initializeInstance instance0 2 8) "Damage" 6 4 rfl
    (by decide) (Or.inr (by decide))

/-- C6, as stated, fails in a reachable state: after `initialize(1, 8)` and
`registerEvent("a", 0)`, the call `registerEvent("b", 0)` returns id 1 and the
same call repeated stops at the assertion instead of returning 1 again. -/
theorem registerEvent_twice_at_capacity :
    ∃ h, registerEvent (initializeInstance instance0 1 8) "a" 0 = .ok (0, h) ∧
      ∃ h1, registerEvent h "b" 0 = .ok (1, h1) ∧
        registerEvent h1 "b" 0 = .error (.assertion "event type overflow") :=
  ⟨_, rfl, _, rfl, rfl⟩

/-- C8.  With the record array of `maxAvailableEventTypeCount` records full
(`registeredEventCount = maxAvailableEventTypeCount`), `registerEvent` with a
new name passes the capacity assertion: it returns the id
`maxAvailableEventTypeCount`, stores a record at that index, one past the end
of the array, and raises the count above the capacity. -/
theorem registerEvent_at_capacity (h : Hermes) (name : String) (dataSize : Nat)
    (evs : List EventType) (hev : h.events = some evs)
    (hlen : evs.length = h.maxAvailableEventTypeCount)
    (hfull : h.registeredEventCount = h.maxAvailableEventTypeCount)
    (hnew : h.eventMap.lookup name = none) :
    registerEvent h name dataSize = .ok (h.maxAvailableEventTypeCount,
      { h with
        events := some (evs ++ [{ id := h.maxAvailableEventTypeCount, dataSize := dataSize,
                                  callbacks := none }])
        registeredEventCount := (h.maxAvailableEventTypeCount + 1) % 2 ^ 16
        eventMap := h.eventMap ++ [(name, h.maxAvailableEventTypeCount)] }) := by
  rw [registerEvent_new h name dataSize evs (le_of_eq hfull) hnew hev]
  simp [storeRecord, mapAssign, hnew, hfull, hlen]

/-- C8 on a registry of capacity 1 holding one name: the second name gets id
1, a record outside the array, and the count becomes 2. -/
theorem registerEvent_at_capacity_witness :
    ∃ h, registerEvent (initializeInstance instance0 1 8) "a" 0 = .ok (0, h) ∧
      h.registeredEventCount = h.maxAvailableEventTypeCount ∧
      ∃ h1, registerEvent h "b" 0 = .ok (1, h1) ∧
        h1.registeredEventCount = 2 ∧ h1.maxAvailableEventTypeCount = 1 ∧
        h1.events = some [{ id := 0, dataSize := 0, callbacks := some [] },
                          { id := 1, dataSize := 0, callbacks := none }] :=
  ⟨_, rfl, rfl, _,
    registerEvent_at_capacity
      { events := some [{ id := 0, dataSize := 0, callbacks := some [] }]
        dataBuffer := some (StackAllocator.create 8)
        eventMap := [("a", 0)]
        registeredEventCount := 1
        maxAvailableEventTypeCount := 1 }
      "b" 0 [{ id := 0, dataSize := 0, callbacks := some [] }] rfl rfl rfl rfl,
    rfl, rfl, rfl⟩


theorem distinctNames_isPrefix (seen names : List String) :
    seen <+: distinctNames seen names := by
  induction names generalizing seen with
  | nil => exact List.prefix_refl _
  | cons n rest ih =>
    unfold distinctNames
    split
    · exact ih seen
    · exact (List.prefix_append seen [n]).trans (ih _)

theorem distinctNames_nodup (seen names : List String) (hs : seen.Nodup) :
    (distinctNames seen names).Nodup := by
  induction names generalizing seen with
  | nil => exact hs
  | cons n rest ih =>
    unfold distinctNames
    split
    · exact ih seen hs
    · rename_i hn
      apply ih
      exact List.Nodup.append hs (List.nodup_singleton n) (by simpa using hn)

theorem indexOf_of_isPrefix {seen all : List String} (hp : seen <+: all) {x : String}
    (hx : x ∈ seen) : all.indexOf x = seen.indexOf x := by
  obtain ⟨t, rfl⟩ := hp
  exact List.indexOf_append_of_mem hx

theorem registerAll_sequential (n : Nat) (hn : n < 2 ^ 16) (calls : List (String × Nat)) :
    ∀ (h : Hermes) (seen : List String), Sequential h seen →
      h.maxAvailableEventTypeCount = n →
      (distinctNames seen (calls.map Prod.fst)).length ≤ n →
      ∃ h1, registerAll h calls =
          .ok (calls.map (fun c => (distinctNames seen (calls.map Prod.fst)).indexOf c.1), h1) ∧
        Sequential h1 (distinctNames seen (calls.map Prod.fst)) ∧
        h1.maxAvailableEventTypeCount = n := by
  induction calls with
  | nil =>
    intro h seen hs hmax _
    exact ⟨h, rfl, hs, hmax⟩
  | cons c rest ih =>
    intro h seen hs hmax hcap
    obtain ⟨name, dataSize⟩ := c
    obtain ⟨hev, hcnt, hmap⟩ := hs
    have hpre := distinctNames_isPrefix seen ((name, dataSize) :: rest |>.map Prod.fst)
    have hle : seen.length ≤ n := le_trans hpre.length_le hcap
    simp only [List.map_cons, distinctNames] at hcap hpre ⊢
    by_cases hmem : name ∈ seen
    · simp only [hmem, if_true] at hcap hpre ⊢
      have hk : h.eventMap.lookup name = some (seen.indexOf name) := by
        rw [hmap]; simp [hmem]
      obtain ⟨h1, hr, hs1, hm1⟩ := ih h seen ⟨hev, hcnt, hmap⟩ hmax hcap
      refine ⟨h1, ?_, hs1, hm1⟩
      simp only [registerAll]
      rw [registerEvent_known h name dataSize _ (by rw [hcnt, hmax]; exact hle) hk]
      simp [hr, indexOf_of_isPrefix hpre hmem]
    · simp only [hmem, if_false] at hcap hpre ⊢
      have hk : h.eventMap.lookup name = none := by
        rw [hmap]; simp [hmem]
      obtain ⟨evs, hevs⟩ := Option.isSome_iff_exists.mp hev
      have hpre2 := distinctNames_isPrefix (seen ++ [name]) (rest.map Prod.fst)
      have hlt : seen.length + 1 ≤ n := by
        have := hpre2.length_le
        simp at this
        exact le_trans this hcap
      have hs1 : Sequential
          { h with
            events := some (storeRecord evs h.registeredEventCount h.registeredEventCount dataSize)
            registeredEventCount := (h.registeredEventCount + 1) % 2 ^ 16
            eventMap := mapAssign h.eventMap name h.registeredEventCount } (seen ++ [name]) := by
        refine ⟨rfl, ?_, ?_⟩
        · show (h.registeredEventCount + 1) % 2 ^ 16 = (seen ++ [name]).length
          rw [hcnt, Nat.mod_eq_of_lt (by omega)]; simp
        · intro x
          show (mapAssign h.eventMap name h.registeredEventCount).lookup x = _
          by_cases hx : x = name
          · subst hx
            rw [lookup_mapAssign_self _ _ _ hk, hcnt]
            simp [List.indexOf_append_of_not_mem hmem]
          · rw [lookup_mapAssign_other _ _ _ _ hk hx, hmap]
            by_cases hxs : x ∈ seen
            · rw [if_pos hxs, if_pos (List.mem_append_left _ hxs),
                List.indexOf_append_of_mem hxs]
            · rw [if_neg hxs, if_neg (by simp [hxs, hx])]
      obtain ⟨h1, hr, hs2, hm1⟩ := ih _ (seen ++ [name]) hs1 hmax hcap
      refine ⟨h1, ?_, hs2, hm1⟩
      simp only [registerAll]
      rw [registerEvent_new h name dataSize evs (by rw [hcnt, hmax]; exact hle) hk hevs]
      have : (distinctNames (seen ++ [name]) (rest.map Prod.fst)).indexOf name = seen.length := by
        rw [indexOf_of_isPrefix hpre2 (by simp)]
        simp [List.indexOf_append_of_not_mem hmem]
      simp only [hr, this]
      rw [hcnt]

theorem mem_distinctNames (seen names : List String) (x : String)
    (hx : x ∈ seen ∨ x ∈ names) : x ∈ distinctNames seen names := by
  induction names generalizing seen with
  | nil => simpa [distinctNames] using hx
  | cons n rest ih =>
    unfold distinctNames
    split
    · rename_i hn
      apply ih
      rcases hx with hx | hx
      · exact Or.inl hx
      · rcases List.mem_cons.mp hx with rfl | hx
        · exact Or.inl hn
        · exact Or.inr hx
    · apply ih
      rcases hx with hx | hx
      · exact Or.inl (List.mem_append_left _ hx)
      · rcases List.mem_cons.mp hx with rfl | hx
        · exact Or.inl (by simp)
        · exact Or.inr hx

/-- C7.  From the instance as first constructed, after `initialize(n, _)`,
every sequence of `registerEvent` calls naming at most `n` distinct names
returns: each call returns the position of its name among the distinct names
in order of first registration (so the i-th distinct name gets id i and
distinct names get distinct ids), and `getRegisteredEventCount()` is then the
number of distinct names. -/
theorem registerEvent_sequential_ids (n bufferSize : Nat) (calls : List (String × Nat))
    (hn : n < 2 ^ 16)
    (hcap : (distinctNames [] (calls.map Prod.fst)).length ≤ n) :
    ∃ h, registerAll (initializeInstance instance0 n bufferSize) calls =
        .ok (calls.map (fun c => (distinctNames [] (calls.map Prod.fst)).indexOf c.1), h) ∧
      (distinctNames [] (calls.map Prod.fst)).Nodup ∧
      (∀ c ∈ calls, c.1 ∈ distinctNames [] (calls.map Prod.fst)) ∧
      h.getRegisteredEventCount = (distinctNames [] (calls.map Prod.fst)).length := by
  obtain ⟨h, hr, hs, _⟩ := registerAll_sequential n hn calls
    (initializeInstance instance0 n bufferSize) []
    ⟨rfl, rfl, fun x => by simp [initializeInstance, instance0]⟩ rfl hcap
  refine ⟨h, hr, distinctNames_nodup _ _ List.nodup_nil, ?_, hs.2.1⟩
  intro c hc
  exact mem_distinctNames _ _ _ (Or.inr (List.mem_map_of_mem _ hc))

/-- C7 on three registrations of two names with capacity 2. -/
theorem registerEvent_sequential_ids_witness :
    ∃ h, registerAll (initializeInstance instance0 2 8) [("a", 0), ("b", 4), ("a", 2)] =
        .ok ([0, 1, 0], h) ∧ h.getRegisteredEventCount = 2 := by
  obtain ⟨h, hr, _, _, hc⟩ :=
    registerEvent_sequential_ids 2 8 [("a", 0), ("b", 4), ("a", 2)] (by decide) (by decide)
  exact ⟨h, hr, hc⟩

/-! ## Marshaller -/

theorem length_writeBytes (mem : List Nat) (a : Nat) (bytes : Arg) :
    (writeBytes mem a bytes).length = mem.length := by
  unfold writeBytes
  split
  · simp; omega
  · rfl

theorem take_writeBytes (mem : List Nat) (a k : Nat) (bytes : Arg) (hk : k ≤ a) :
    (writeBytes mem a bytes).take k = mem.take k := by
  unfold writeBytes
  split
  · rename_i hin
    rw [List.append_assoc, List.take_append_of_le_length (by simp; omega), List.take_take]
    simp [hk]
  · rfl

theorem readBytes_writeBytes (mem : List Nat) (a : Nat) (bytes : Arg)
    (hin : a + bytes.length ≤ mem.length) :
    readBytes (writeBytes mem a bytes) a bytes.length = some bytes := by
  have hl := length_writeBytes mem a bytes
  unfold readBytes
  rw [if_pos (by omega)]
  unfold writeBytes
  rw [if_pos hin, List.append_assoc, List.drop_append_of_le_length (by simp; omega)]
  have : (List.take a mem).length = a := by simp; omega
  rw [List.drop_of_length_le (by omega), List.nil_append, List.take_left']
  rfl

theorem readBytes_congr (mem mem1 : List Nat) (a n : Nat) (hlen : mem1.length = mem.length)
    (htake : mem1.take (a + n) = mem.take (a + n)) :
    readBytes mem1 a n = readBytes mem a n := by
  unfold readBytes
  rw [hlen]
  split
  · have e1 : (mem1.drop a).take n = (mem1.take (a + n)).drop a := by
      rw [List.drop_take]; simp
    have e2 : (mem.drop a).take n = (mem.take (a + n)).drop a := by
      rw [List.drop_take]; simp
    rw [e1, e2, htake]
  · rfl

/-- Packing `t, args...` into a range of at least their total size writes the
arguments one after the other from `data + offset` on, leaves the bytes below
untouched, and `convertFromVoid` reads the same values back. -/
theorem convert_roundtrip (data maxSize : Nat) (args : List Arg) :
    ∀ (mem : List Nat) (offset : Nat) (t : Arg),
      offset + ((t :: args).map List.length).sum ≤ maxSize →
      data + maxSize ≤ mem.length →
      ∃ mem1, __convert mem data offset maxSize t args = .ok mem1 ∧
        mem1.length = mem.length ∧
        mem1.take (data + offset) = mem.take (data + offset) ∧
        convertFromVoid mem1 data offset t.length (args.map List.length) = .ok (t :: args) := by
  induction args with
  | nil =>
    intro mem offset t hsum hmem
    simp only [List.map_cons, List.map_nil, List.sum_cons, List.sum_nil, Nat.add_zero] at hsum
    refine ⟨writeBytes mem (data + offset) t, ?_, length_writeBytes _ _ _,
      take_writeBytes _ _ _ _ (le_refl _), ?_⟩
    · simp [__convert, hsum]
    · simp only [List.map_nil, convertFromVoid]
      rw [readBytes_writeBytes _ _ _ (by omega)]
  | cons a rest ih =>
    intro mem offset t hsum hmem
    simp only [List.map_cons, List.sum_cons] at hsum
    have hfit : offset + t.length ≤ maxSize := by omega
    obtain ⟨mem1, hc, hlen, htake, hread⟩ :=
      ih (writeBytes mem (data + offset) t) (offset + t.length) a
        (by simp only [List.map_cons, List.sum_cons]; omega)
        (by rw [length_writeBytes]; exact hmem)
    rw [length_writeBytes] at hlen
    refine ⟨mem1, ?_, hlen, ?_, ?_⟩
    · simp [__convert, hfit, hc]
    · have := congrArg (List.take (data + offset)) htake
      rw [List.take_take, List.take_take] at this
      rw [min_eq_left (by omega)] at this
      rw [this, take_writeBytes _ _ _ _ (le_refl _)]
    · have hr : readBytes mem1 (data + offset) t.length = some t := by
        rw [readBytes_congr (writeBytes mem (data + offset) t) mem1 _ _
          (by rw [hlen, length_writeBytes]) (by rw [Nat.add_assoc]; exact htake)]
        exact readBytes_writeBytes _ _ _ (by omega)
      simp only [List.map_cons, convertFromVoid, hr, hread]

/-- C5.  For an event whose registered payload size is the total size of the
arguments `t, args...`, with room left in the arena, `triggerEvent(id, t,
args...)` returns, queues a call whose payload pointer is the start of the
bytes it acquired, and `convert` on that pointer with outputs of the same
sizes in the same order reads back exactly `t, args...`. -/
theorem triggerEvent_convert_roundtrip (h : Hermes) (id : EventID) (t : Arg)
    (args : List Arg) (event : EventType) (buf : StackAllocator)
    (hevent : eventAt h id = .ok event)
    (hsize : ((t :: args).map List.length).sum = event.dataSize)
    (hbuf : h.dataBuffer = some buf) (hmem : buf.memory.length = buf.maxSize)
    (hroom : buf.usedSize + event.dataSize ≤ buf.maxSize)
    (hid : id < h.registeredEventCount) :
    ∃ h1, triggerEvent h id t args = .ok h1 ∧
      h1.calls = h.calls ++ [{ id := id, data := some buf.usedSize }] ∧
      convert h1 (some buf.usedSize) t.length (args.map List.length) = .ok (t :: args) := by
  obtain ⟨mem1, hc, _, _, hread⟩ :=
    convert_roundtrip buf.usedSize event.dataSize args buf.memory 0 t
      (by rw [hsize]; omega) (by rw [hmem]; exact hroom)
  refine ⟨{ h with
      dataBuffer := some { buf with usedSize := buf.usedSize + event.dataSize, memory := mem1 }
      calls := h.calls ++ [{ id := id, data := some buf.usedSize }] }, ?_, rfl, ?_⟩
  · simp [triggerEvent, hevent, _convert, hbuf, StackAllocator.push, hroom, hc, _triggerEvent, hid]
  · simpa [convert] using hread

/-- C5 on the example of the specification: `(int32 50, uint16 7)` packed
into a payload of 6 bytes and read back. -/
theorem triggerEvent_convert_roundtrip_witness :
    ∃ h0 h1, registerEvent (initializeInstance instance0 4 16) "Damage" 6 = .ok (0, h0) ∧
      triggerEvent h0 0 (littleEndian 4 50) [littleEndian 2 7] = .ok h1 ∧
      h1.calls = [{ id := 0, data := some 0 }] ∧
      convert h1 (some 0) 4 [2] = .ok [littleEndian 4 50, littleEndian 2 7] := by
  obtain ⟨h1, ht, hcalls, hconv⟩ :=
    triggerEvent_convert_roundtrip
      { events := some [{ id := 0, dataSize := 6, callbacks := some [] },
                        { callbacks := some [] }, { callbacks := some [] },
                        { callbacks := some [] }]
        dataBuffer := some (StackAllocator.create 16)
        eventMap := [("Damage", 0)]
        registeredEventCount := 1
        maxAvailableEventTypeCount := 4 }
      0 (littleEndian 4 50) [littleEndian 2 7]
      { id := 0, dataSize := 6, callbacks := some [] } (StackAllocator.create 16)
      rfl rfl rfl rfl (by decide) (by decide)
  exact ⟨_, h1, rfl, ht, hcalls, hconv⟩

/-! ## What the loops of `update` preserve -/

theorem Script.uses_any {σ : Type} (s : Script σ) : s.Uses (fun _ => True) := by
  induction s with
  | done handled user => trivial
  | call c k ih => exact ⟨trivial, ih⟩

theorem Env.uses_anything {σ : Type} (env : Env σ) : env.Uses (fun _ => True) :=
  ⟨fun _ _ _ => Script.uses_any _, fun _ _ _ _ => Script.uses_any _⟩

/-- A property of the instance and the observations that every allowed
interface call keeps is kept by a handler invocation. -/
theorem Script.run_preserves {σ : Type} (allowed : Call → Prop)
    (P : Hermes → List Obs → Prop)
    (hcall : ∀ c h r h1 log, allowed c → P h log → c.exec h = .ok (r, h1) →
      P h1 (log ++ c.obs r))
    (s : Script σ) (hs : s.Uses allowed) (w w1 : World σ) (b : Bool)
    (hP : P w.hermes w.log) (hrun : s.run w = .ok (b, w1)) : P w1.hermes w1.log := by
  induction s generalizing w with
  | done handled user =>
    simp only [Script.run, Except.ok.injEq, Prod.mk.injEq] at hrun
    obtain ⟨_, rfl⟩ := hrun
    exact hP
  | call c k ih =>
    simp only [Script.run] at hrun
    cases hc : c.exec w.hermes with
    | error f => simp [hc] at hrun
    | ok p =>
      obtain ⟨r, h1⟩ := p
      simp only [hc] at hrun
      exact ih r (hs.2 r) _ (hcall c w.hermes r h1 w.log hs.1 hP hc) hrun

/-- The result of `callCallback`: the handler ran, then the invocation was
observed. -/
theorem callCallback_eq {σ : Type} (env : Env σ) (callback : EventCallback) (data : Ptr)
    (w w1 : World σ) (b : Bool) (hrun : callCallback env callback data w = .ok (b, w1)) :
    ∃ (s : Script σ) (w0 : World σ),
      (s = env.function callback.callback data w.user ∨
        s = env.method callback.callback callback.subscribedInstance data w.user) ∧
      s.run w = .ok (b, w0) ∧
      w1 = { w0 with log := w0.log ++ [callback.obs data b] } := by
  unfold callCallback at hrun
  cases ht : callback.type with
  | Function =>
    simp only [ht] at hrun
    cases hr : (env.function callback.callback data w.user).run w with
    | error f => simp [hr] at hrun
    | ok p =>
      obtain ⟨b0, w0⟩ := p
      simp only [hr, Except.ok.injEq, Prod.mk.injEq] at hrun
      obtain ⟨rfl, rfl⟩ := hrun
      exact ⟨_, w0, Or.inl rfl, hr, by simp [EventCallback.obs, ht]⟩
  | Method =>
    simp only [ht] at hrun
    cases hr : (env.method callback.callback callback.subscribedInstance data w.user).run w with
    | error f => simp [hr] at hrun
    | ok p =>
      obtain ⟨b0, w0⟩ := p
      simp only [hr, Except.ok.injEq, Prod.mk.injEq] at hrun
      obtain ⟨rfl, rfl⟩ := hrun
      exact ⟨_, w0, Or.inr rfl, hr, by simp [EventCallback.obs, ht]⟩

theorem callCallback_preserves {σ : Type} (env : Env σ) (allowed : Call → Prop)
    (henv : env.Uses allowed) (P : Hermes → List Obs → Prop)
    (hcall : ∀ c h r h1 log, allowed c → P h log → c.exec h = .ok (r, h1) →
      P h1 (log ++ c.obs r))
    (hinv : ∀ h log (cb : EventCallback) data b, P h log → P h (log ++ [cb.obs data b]))
    (callback : EventCallback) (data : Ptr) (w w1 : World σ) (b : Bool)
    (hP : P w.hermes w.log) (hrun : callCallback env callback data w = .ok (b, w1)) :
    P w1.hermes w1.log := by
  obtain ⟨s, w0, hs, hr, rfl⟩ := callCallback_eq env callback data w w1 b hrun
  have hu : s.Uses allowed := by
    rcases hs with rfl | rfl
    · exact henv.1 _ _ _
    · exact henv.2 _ _ _ _
  exact hinv _ _ _ _ _ (Script.run_preserves allowed P hcall s hu w w0 b hP hr)

/-- One step of the inner loop of `update`, when it goes on or returns. -/
theorem dispatch_succ {σ : Type} (env : Env σ) (fuel : Nat) (c : EventCall) (j : Nat)
    (w w1 : World σ) (hrun : dispatch env (fuel + 1) c j w = .returned w1) :
    ∃ cbs, callbacksOf w.hermes c.id = .ok cbs ∧
      ((cbs.get? j = none ∧ w1 = w) ∨
        ∃ callback, cbs.get? j = some callback ∧
          (callCallback env callback c.data w = .ok (true, w1) ∨
            ∃ w0, callCallback env callback c.data w = .ok (false, w0) ∧
              dispatch env fuel c (j + 1) w0 = .returned w1)) := by
  simp only [dispatch] at hrun
  cases hc : callbacksOf w.hermes c.id with
  | error f => simp [hc] at hrun
  | ok cbs =>
    refine ⟨cbs, rfl, ?_⟩
    simp only [hc] at hrun
    cases hg : cbs.get? j with
    | none =>
      simp only [hg, Outcome.returned.injEq] at hrun
      exact Or.inl ⟨rfl, hrun.symm⟩
    | some callback =>
      simp only [hg] at hrun
      refine Or.inr ⟨callback, rfl, ?_⟩
      cases hcc : callCallback env callback c.data w with
      | error f => simp [hcc] at hrun
      | ok p =>
        obtain ⟨b, w0⟩ := p
        cases b with
        | true =>
          simp only [hcc, Outcome.returned.injEq] at hrun
          exact Or.inl (by rw [hrun])
        | false =>
          simp only [hcc] at hrun
          exact Or.inr ⟨w0, rfl, hrun⟩

theorem dispatch_preserves {σ : Type} (env : Env σ) (allowed : Call → Prop)
    (henv : env.Uses allowed) (P : Hermes → List Obs → Prop)
    (hcall : ∀ c h r h1 log, allowed c → P h log → c.exec h = .ok (r, h1) →
      P h1 (log ++ c.obs r))
    (hinv : ∀ h log (cb : EventCallback) data b, P h log → P h (log ++ [cb.obs data b]))
    (fuel : Nat) (c : EventCall) (j : Nat) (w w1 : World σ)
    (hP : P w.hermes w.log) (hrun : dispatch env fuel c j w = .returned w1) :
    P w1.hermes w1.log := by
  induction fuel generalizing j w with
  | zero => simp [dispatch] at hrun
  | succ fuel ih =>
    obtain ⟨cbs, _, hstep⟩ := dispatch_succ env fuel c j w w1 hrun
    rcases hstep with ⟨_, rfl⟩ | ⟨callback, _, hcc | ⟨w0, hcc, hrest⟩⟩
    · exact hP
    · exact callCallback_preserves env allowed henv P hcall hinv callback c.data w w1 true hP hcc
    · exact ih (j + 1) w0
        (callCallback_preserves env allowed henv P hcall hinv callback c.data w w0 false hP hcc)
        hrest

/-- One step of the outer loop of `update`, when it goes on or returns. -/
theorem drain_succ {σ : Type} (env : Env σ) (fuel : Nat) (i : Nat)
    (w w1 : World σ) (hrun : drain env (fuel + 1) i w = .returned w1) :
    (w.hermes.calls.get? i = none ∧ w1 = w) ∨
      ∃ c w0, w.hermes.calls.get? i = some c ∧
        dispatch env fuel c 0 { w with log := w.log ++ [.dispatch c] } = .returned w0 ∧
        drain env fuel (i + 1) w0 = .returned w1 := by
  simp only [drain] at hrun
  cases hg : w.hermes.calls.get? i with
  | none =>
    simp only [hg, Outcome.returned.injEq] at hrun
    exact Or.inl ⟨rfl, hrun.symm⟩
  | some c =>
    simp only [hg] at hrun
    cases hd : dispatch env fuel c 0 { w with log := w.log ++ [.dispatch c] } with
    | returned w0 =>
      simp only [hd] at hrun
      exact Or.inr ⟨c, w0, rfl, hd, hrun⟩
    | fatal f => simp [hd] at hrun
    | unfinished => simp [hd] at hrun

theorem drain_preserves {σ : Type} (env : Env σ) (allowed : Call → Prop)
    (henv : env.Uses allowed) (P : Hermes → List Obs → Prop)
    (hcall : ∀ c h r h1 log, allowed c → P h log → c.exec h = .ok (r, h1) →
      P h1 (log ++ c.obs r))
    (hinv : ∀ h log (cb : EventCallback) data b, P h log → P h (log ++ [cb.obs data b]))
    (hdisp : ∀ h log c, P h log → P h (log ++ [.dispatch c]))
    (fuel : Nat) (i : Nat) (w w1 : World σ)
    (hP : P w.hermes w.log) (hrun : drain env fuel i w = .returned w1) :
    P w1.hermes w1.log := by
  induction fuel generalizing i w with
  | zero => simp [drain] at hrun
  | succ fuel ih =>
    rcases drain_succ env fuel i w w1 hrun with ⟨_, rfl⟩ | ⟨c, w0, _, hd, hrest⟩
    · exact hP
    · exact ih (i + 1) w0
        (dispatch_preserves env allowed henv P hcall hinv fuel c 0
          { w with log := w.log ++ [.dispatch c] } w0 (hdisp _ _ c hP) hd)
        hrest

/-! ## The effect of one interface call -/

theorem callbacksOf_eq_of_events {h h1 : Hermes} (he : h1.events = h.events) (id : EventID) :
    callbacksOf h1 id = callbacksOf h id := by
  simp [callbacksOf, eventAt, he]

theorem callbacksOf_ok_iff (h : Hermes) (id : EventID) (cbs : List EventCallback) :
    callbacksOf h id = .ok cbs ↔
      ∃ evs e, h.events = some evs ∧ evs[id]? = some e ∧ e.callbacks = some cbs := by
  unfold callbacksOf eventAt
  constructor
  · intro hr
    cases hev : h.events with
    | none => simp [hev] at hr
    | some evs =>
      simp only [hev, List.get?_eq_getElem?] at hr
      cases hg : evs[id]? with
      | none => simp [hg] at hr
      | some e =>
        simp only [hg] at hr
        cases hc : e.callbacks with
        | none => simp [hc] at hr
        | some l =>
          simp only [hc, Except.ok.injEq] at hr
          exact ⟨evs, e, rfl, hg, by rw [hc, hr]⟩
  · rintro ⟨evs, e, hev, hg, hc⟩
    simp [hev, hg, hc]

theorem storeRecord_getElem? (evs : List EventType) (i a b id : Nat) (e : EventType)
    (he : evs[id]? = some e) :
    ∃ e1, (storeRecord evs i a b)[id]? = some e1 ∧ e1.callbacks = e.callbacks := by
  have hid : id < evs.length := (List.getElem?_eq_some_iff.mp he).1
  unfold storeRecord
  split
  · rw [List.getElem?_modify, he]
    by_cases hi : i = id
    · exact ⟨{ e with id := a, dataSize := b }, by simp [hi], rfl⟩
    · exact ⟨e, by simp [hi], rfl⟩
  · rw [List.append_assoc, List.getElem?_append_left hid]
    exact ⟨e, he, rfl⟩

theorem registerEvent_effect (h h1 : Hermes) (name : String) (dataSize : Nat) (id : EventID)
    (hr : registerEvent h name dataSize = .ok (id, h1)) :
    h1.calls = h.calls ∧ h1.dataBuffer = h.dataBuffer ∧
      (∀ i cbs, callbacksOf h i = .ok cbs → callbacksOf h1 i = .ok cbs) := by
  unfold registerEvent at hr
  split at hr
  · split at hr
    · simp only [Except.ok.injEq, Prod.mk.injEq] at hr
      obtain ⟨_, rfl⟩ := hr
      exact ⟨rfl, rfl, fun _ _ hc => hc⟩
    · split at hr
      · simp at hr
      · rename_i evs hev
        simp only [Except.ok.injEq, Prod.mk.injEq] at hr
        obtain ⟨_, rfl⟩ := hr
        refine ⟨rfl, rfl, ?_⟩
        intro i cbs hc
        rw [callbacksOf_ok_iff] at hc ⊢
        obtain ⟨evs0, e, he0, hg, hcb⟩ := hc
        rw [hev] at he0
        cases he0
        obtain ⟨e1, hg1, hcb1⟩ := storeRecord_getElem? evs h.registeredEventCount
          h.registeredEventCount dataSize i e hg
        exact ⟨_, e1, rfl, hg1, by rw [hcb1, hcb]⟩
  · simp at hr

theorem pushCallback_effect (h h1 : Hermes) (id : EventID) (cb : EventCallback)
    (hr : pushCallback h id cb = .ok h1) :
    h1.calls = h.calls ∧ h1.dataBuffer = h.dataBuffer ∧ h1.eventMap = h.eventMap ∧
      h1.registeredEventCount = h.registeredEventCount ∧
      h1.maxAvailableEventTypeCount = h.maxAvailableEventTypeCount ∧
      (∃ cbs, callbacksOf h id = .ok cbs ∧ callbacksOf h1 id = .ok (cbs ++ [cb])) ∧
      (∀ i, i ≠ id → callbacksOf h1 i = callbacksOf h i) := by
  unfold pushCallback at hr
  cases hev : h.events with
  | none => simp [hev] at hr
  | some evs =>
    simp only [hev, List.get?_eq_getElem?] at hr
    cases hg : evs[id]? with
    | none => simp [hg] at hr
    | some e =>
      simp only [hg] at hr
      cases hcb : e.callbacks with
      | none => simp [hcb] at hr
      | some cbs =>
        simp only [hcb, Except.ok.injEq] at hr
        subst hr
        have hid : id < evs.length := (List.getElem?_eq_some_iff.mp hg).1
        refine ⟨rfl, rfl, rfl, rfl, rfl, ⟨cbs, ?_, ?_⟩, ?_⟩
        · rw [callbacksOf_ok_iff]
          exact ⟨evs, e, hev, hg, hcb⟩
        · rw [callbacksOf_ok_iff]
          exact ⟨_, { e with callbacks := some (cbs ++ [cb]) }, rfl,
            by simp [List.getElem?_set, hid], rfl⟩
        · intro i hi
          simp [callbacksOf, eventAt, hev, List.getElem?_set, Ne.symm hi]

theorem _triggerEvent_effect (h h1 : Hermes) (id : EventID) (data : Ptr)
    (hr : _triggerEvent h id data = .ok h1) :
    h1 = { h with calls := h.calls ++ [{ id := id, data := data }] } ∧
      id < h.registeredEventCount := by
  unfold _triggerEvent at hr
  split at hr
  · simp only [Except.ok.injEq] at hr
    exact ⟨hr.symm, by assumption⟩
  · simp at hr

theorem _convert_effect (h h1 : Hermes) (size : Nat) (t : Arg) (args : List Arg) (p : Ptr)
    (hr : _convert h size t args = .ok (p, h1)) :
    h1.calls = h.calls ∧ h1.events = h.events ∧ h1.eventMap = h.eventMap ∧
      h1.registeredEventCount = h.registeredEventCount ∧
      h1.maxAvailableEventTypeCount = h.maxAvailableEventTypeCount := by
  unfold _convert at hr
  split at hr
  · simp at hr
  · split at hr
    · simp at hr
    · split at hr
      · simp at hr
      · simp only [Except.ok.injEq, Prod.mk.injEq] at hr
        obtain ⟨_, rfl⟩ := hr
        exact ⟨rfl, rfl, rfl, rfl, rfl⟩

theorem triggerEvent_effect (h h1 : Hermes) (id : EventID) (t : Arg) (args : List Arg)
    (hr : triggerEvent h id t args = .ok h1) :
    (∃ data, h1.calls = h.calls ++ [{ id := id, data := data }]) ∧
      h1.events = h.events ∧ h1.eventMap = h.eventMap ∧
      h1.registeredEventCount = h.registeredEventCount ∧
      h1.maxAvailableEventTypeCount = h.maxAvailableEventTypeCount := by
  unfold triggerEvent at hr
  split at hr
  · simp at hr
  · split at hr
    · simp at hr
    · rename_i data h0 hc
      obtain ⟨hcalls, hev, hmap, hcnt, hmax⟩ := _convert_effect _ _ _ _ _ _ hc
      obtain ⟨rfl, _⟩ := _triggerEvent_effect _ _ _ _ hr
      exact ⟨⟨data, by simp [hcalls]⟩, hev, hmap, hcnt, hmax⟩

theorem subscribe_effect (h h1 : Hermes) (id : EventID) (callback : Nat)
    (hr : subscribe h id callback = .ok h1) :
    id ≤ h.registeredEventCount ∧
      pushCallback h id { callback := callback, type := .Function } = .ok h1 := by
  unfold subscribe at hr
  split at hr
  · exact ⟨by assumption, hr⟩
  · simp at hr

theorem subscribeMethod_effect (h h1 : Hermes) (id : EventID) (subscribedInstance : Ptr)
    (callback : Nat) (hr : subscribeMethod h id subscribedInstance callback = .ok h1) :
    id ≤ h.registeredEventCount ∧
      pushCallback h id { callback := callback, type := .Method } = .ok h1 := by
  unfold subscribeMethod at hr
  split at hr
  · exact ⟨by assumption, hr⟩
  · simp at hr

theorem getEventIndex_effect (h h1 : Hermes) (name : String) (id : EventID)
    (hr : getEventIndex h name = .ok (id, h1)) :
    h1 = h ∧ h.eventMap.lookup name = some id := by
  unfold getEventIndex at hr
  split at hr
  · simp only [Except.ok.injEq, Prod.mk.injEq] at hr
    obtain ⟨rfl, rfl⟩ := hr
    exact ⟨rfl, by assumption⟩
  · simp at hr

theorem callbacksOf_grow_of_pushCallback (h h1 : Hermes) (id : EventID) (cb : EventCallback)
    (hr : pushCallback h id cb = .ok h1) (i : EventID) (cbs : List EventCallback)
    (hc : callbacksOf h i = .ok cbs) : ∃ more, callbacksOf h1 i = .ok (cbs ++ more) := by
  obtain ⟨_, _, _, _, _, ⟨cbs0, h0, h1⟩, hother⟩ := pushCallback_effect _ _ _ _ hr
  by_cases hi : i = id
  · subst hi
    rw [h0] at hc
    cases hc
    exact ⟨_, h1⟩
  · exact ⟨[], by rw [hother i hi]; simpa using hc⟩

/-- What one interface call does to the queue, to the callback lists and to
the observations. -/
theorem Call.exec_effect (c : Call) (h h1 : Hermes) (r : Reply)
    (hr : c.exec h = .ok (r, h1)) :
    (∃ new, h1.calls = h.calls ++ new ∧ triggered (c.obs r) = new.map (fun c => c.id)) ∧
      dispatched (c.obs r) = [] ∧ invocations (c.obs r) = [] ∧
      ∀ id cbs, callbacksOf h id = .ok cbs → ∃ more, callbacksOf h1 id = .ok (cbs ++ more) := by
  have same : ∀ r0 : Reply, r = r0 ∧ h1 = h → triggered (c.obs r) = [] →
      dispatched (c.obs r) = [] → invocations (c.obs r) = [] →
      (∃ new, h1.calls = h.calls ++ new ∧ triggered (c.obs r) = new.map (fun c => c.id)) ∧
      dispatched (c.obs r) = [] ∧ invocations (c.obs r) = [] ∧
      ∀ id cbs, callbacksOf h id = .ok cbs → ∃ more, callbacksOf h1 id = .ok (cbs ++ more) := by
    rintro r0 ⟨rfl, rfl⟩ ht hd hi
    exact ⟨⟨[], by simp, by simpa using ht⟩, hd, hi, fun id cbs hc => ⟨[], by simpa using hc⟩⟩
  cases c with
  | registerEvent name dataSize =>
    simp only [Call.exec] at hr
    split at hr
    · rename_i id h2 hreg
      simp only [Except.ok.injEq, Prod.mk.injEq] at hr
      obtain ⟨rfl, rfl⟩ := hr
      obtain ⟨hcalls, _, hcb⟩ := registerEvent_effect _ _ _ _ _ hreg
      exact ⟨⟨[], by simp [hcalls], rfl⟩, rfl, rfl,
        fun id cbs hc => ⟨[], by simpa using hcb id cbs hc⟩⟩
    · simp at hr
  | getEventIndex name =>
    simp only [Call.exec] at hr
    split at hr
    · rename_i id h2 hget
      simp only [Except.ok.injEq, Prod.mk.injEq] at hr
      obtain ⟨rfl, rfl⟩ := hr
      obtain ⟨rfl, _⟩ := getEventIndex_effect _ _ _ _ hget
      exact same _ ⟨rfl, rfl⟩ rfl rfl rfl
    · simp at hr
  | triggerEvent id t args =>
    simp only [Call.exec] at hr
    split at hr
    · rename_i h2 htr
      simp only [Except.ok.injEq, Prod.mk.injEq] at hr
      obtain ⟨rfl, rfl⟩ := hr
      obtain ⟨⟨data, hcalls⟩, hev, _⟩ := triggerEvent_effect _ _ _ _ _ htr
      exact ⟨⟨[{ id := id, data := data }], hcalls, rfl⟩, rfl, rfl,
        fun i cbs hc => ⟨[], by rw [callbacksOf_eq_of_events hev]; simpa using hc⟩⟩
    · simp at hr
  | triggerEvent0 id =>
    simp only [Call.exec] at hr
    split at hr
    · rename_i h2 htr
      simp only [Except.ok.injEq, Prod.mk.injEq] at hr
      obtain ⟨rfl, rfl⟩ := hr
      obtain ⟨rfl, _⟩ := _triggerEvent_effect _ _ _ _ htr
      exact ⟨⟨[{ id := id, data := none }], rfl, rfl⟩, rfl, rfl,
        fun i cbs hc => ⟨[], by rw [callbacksOf_eq_of_events rfl]; simpa using hc⟩⟩
    · simp at hr
  | subscribe id callback =>
    simp only [Call.exec] at hr
    split at hr
    · rename_i h2 hsub
      simp only [Except.ok.injEq, Prod.mk.injEq] at hr
      obtain ⟨rfl, rfl⟩ := hr
      obtain ⟨_, hpush⟩ := subscribe_effect _ _ _ _ hsub
      obtain ⟨hcalls, _⟩ := pushCallback_effect _ _ _ _ hpush
      exact ⟨⟨[], by simp [hcalls], rfl⟩, rfl, rfl,
        callbacksOf_grow_of_pushCallback _ _ _ _ hpush⟩
    · simp at hr
  | subscribeMethod id subscribedInstance callback =>
    simp only [Call.exec] at hr
    split at hr
    · rename_i h2 hsub
      simp only [Except.ok.injEq, Prod.mk.injEq] at hr
      obtain ⟨rfl, rfl⟩ := hr
      obtain ⟨_, hpush⟩ := subscribeMethod_effect _ _ _ _ _ hsub
      obtain ⟨hcalls, _⟩ := pushCallback_effect _ _ _ _ hpush
      exact ⟨⟨[], by simp [hcalls], rfl⟩, rfl, rfl,
        callbacksOf_grow_of_pushCallback _ _ _ _ hpush⟩
    · simp at hr
  | convert ptr size sizes =>
    simp only [Call.exec] at hr
    split at hr
    · simp only [Except.ok.injEq, Prod.mk.injEq] at hr
      exact same _ ⟨hr.1.symm, hr.2.symm⟩ (by rw [← hr.1]; rfl) (by rw [← hr.1]; rfl)
        (by rw [← hr.1]; rfl)
    · simp at hr
  | getRegisteredEventCount =>
    simp only [Call.exec, Except.ok.injEq, Prod.mk.injEq] at hr
    exact same _ ⟨hr.1.symm, hr.2.symm⟩ (by rw [← hr.1]; rfl) (by rw [← hr.1]; rfl)
      (by rw [← hr.1]; rfl)
  | getMaxEventTypeCount =>
    simp only [Call.exec, Except.ok.injEq, Prod.mk.injEq] at hr
    exact same _ ⟨hr.1.symm, hr.2.symm⟩ (by rw [← hr.1]; rfl) (by rw [← hr.1]; rfl)
      (by rw [← hr.1]; rfl)
  | getMaxDataBufferSize =>
    simp only [Call.exec] at hr
    split at hr
    · simp only [Except.ok.injEq, Prod.mk.injEq] at hr
      exact same _ ⟨hr.1.symm, hr.2.symm⟩ (by rw [← hr.1]; rfl) (by rw [← hr.1]; rfl)
        (by rw [← hr.1]; rfl)
    · simp at hr
  | getCurrentlyUsedDataBufferSize =>
    simp only [Call.exec] at hr
    split at hr
    · simp only [Except.ok.injEq, Prod.mk.injEq] at hr
      exact same _ ⟨hr.1.symm, hr.2.symm⟩ (by rw [← hr.1]; rfl) (by rw [← hr.1]; rfl)
        (by rw [← hr.1]; rfl)
    · simp at hr

/-! ## The inner loop: one call -/

theorem obs_filters (cb : EventCallback) (data : Ptr) (b : Bool) :
    invocations [cb.obs data b] = [cb.obs data b] ∧ dispatched [cb.obs data b] = [] ∧
      triggered [cb.obs data b] = [] ∧ registrations [cb.obs data b] = [] := by
  cases ht : cb.type <;>
    simp [EventCallback.obs, ht, invocations, dispatched, triggered, registrations]

theorem invocations_append (l1 l2 : List Obs) :
    invocations (l1 ++ l2) = invocations l1 ++ invocations l2 := by
  simp [invocations]

theorem dispatched_append (l1 l2 : List Obs) :
    dispatched (l1 ++ l2) = dispatched l1 ++ dispatched l2 := by
  simp [dispatched]

theorem triggered_append (l1 l2 : List Obs) :
    triggered (l1 ++ l2) = triggered l1 ++ triggered l2 := by
  simp [triggered]

theorem registrations_append (l1 l2 : List Obs) :
    registrations (l1 ++ l2) = registrations l1 ++ registrations l2 := by
  simp [registrations]

theorem Since.refl (h : Hermes) (log : List Obs) : Since h log h log :=
  ⟨[], [], by simp, rfl, by simp, rfl, fun _ cbs hc => ⟨[], by simpa using hc⟩⟩

theorem Since.trans {h0 h1 h2 : Hermes} {l0 l1 l2 : List Obs}
    (h01 : Since h0 l0 h1 l1) (h12 : Since h1 l1 h2 l2) : Since h0 l0 h2 l2 := by
  obtain ⟨e1, n1, rfl, hd1, hc1, ht1, hcb1⟩ := h01
  obtain ⟨e2, n2, rfl, hd2, hc2, ht2, hcb2⟩ := h12
  refine ⟨e1 ++ e2, n1 ++ n2, by simp, by simp [dispatched_append, hd1, hd2],
    by simp [hc2, hc1], by simp [triggered_append, ht1, ht2], ?_⟩
  intro id cbs hc
  obtain ⟨m1, hm1⟩ := hcb1 id cbs hc
  obtain ⟨m2, hm2⟩ := hcb2 id _ hm1
  exact ⟨m1 ++ m2, by simpa using hm2⟩

theorem Since.callbacks {h0 h : Hermes} {log0 log : List Obs} (hs : Since h0 log0 h log)
    (id : EventID) (cbs : List EventCallback) (hc : callbacksOf h0 id = .ok cbs) :
    ∃ more, callbacksOf h id = .ok (cbs ++ more) := by
  obtain ⟨_, _, _, _, _, _, hcb⟩ := hs
  exact hcb id cbs hc

theorem Since.after_call {h0 h h1 : Hermes} {log0 log : List Obs} (c : Call) (r : Reply)
    (hs : Since h0 log0 h log) (hr : c.exec h = .ok (r, h1)) :
    Since h0 log0 h1 (log ++ c.obs r) := by
  obtain ⟨⟨new, hcalls, htrig⟩, hdisp, _, hcb⟩ := Call.exec_effect c h h1 r hr
  exact hs.trans ⟨c.obs r, new, rfl, hdisp, hcalls, htrig, hcb⟩

theorem Since.invocation {h0 h : Hermes} {log0 log : List Obs} (cb : EventCallback)
    (data : Ptr) (b : Bool) (hs : Since h0 log0 h log) :
    Since h0 log0 h (log ++ [cb.obs data b]) :=
  hs.trans ⟨[cb.obs data b], [], rfl, (obs_filters cb data b).2.1, by simp,
    (obs_filters cb data b).2.2.1, fun _ cbs hc => ⟨[], by simpa using hc⟩⟩

/-- A handler invocation, from the point of view of the loops: the queue and
the callback lists grow at their ends only, and exactly one invocation is
observed. -/
theorem callCallback_effect {σ : Type} (env : Env σ) (callback : EventCallback) (data : Ptr)
    (w w1 : World σ) (b : Bool) (hrun : callCallback env callback data w = .ok (b, w1)) :
    Since w.hermes w.log w1.hermes w1.log ∧
      ∃ extra, w1.log = w.log ++ extra ∧ invocations extra = [callback.obs data b] := by
  constructor
  · exact callCallback_preserves env (fun _ => True) (Env.uses_anything env)
      (Since w.hermes w.log) (fun c _ r _ _ _ hs hr => hs.after_call c r hr)
      (fun h log cb data b hs => hs.invocation cb data b) callback data w w1 b
      (Since.refl _ _) hrun
  · obtain ⟨s, w0, _, hr, rfl⟩ := callCallback_eq env callback data w w1 b hrun
    have hq : NoInvocationSince w.log w0.log :=
      Script.run_preserves (fun _ => True) (fun _ log => NoInvocationSince w.log log)
        (fun c h r h1 log _ hs hr => by
          obtain ⟨extra, rfl, hinv⟩ := hs
          obtain ⟨_, _, hi, _⟩ := Call.exec_effect c h h1 r hr
          exact ⟨extra ++ c.obs r, by simp, by simp [invocations_append, hinv, hi]⟩)
        s (Script.uses_any s) w w0 b ⟨[], by simp, rfl⟩ hr
    obtain ⟨extra, he, hinv⟩ := hq
    exact ⟨extra ++ [callback.obs data b], by simp [he],
      by rw [invocations_append, hinv, (obs_filters callback data b).1]; rfl⟩

theorem drop_eq_cons_of_getElem? {α : Type} (l : List α) (j : Nat) (x : α)
    (h : l[j]? = some x) : l.drop j = x :: l.drop (j + 1) := by
  obtain ⟨hj, rfl⟩ := List.getElem?_eq_some_iff.mp h
  exact List.drop_eq_getElem_cons hj

/-- The inner loop of `update` from position `j`: the handlers invoked are the
callbacks of the event from position `j` on, in list order, every one but the
last returned `false`, and the loop stopped either at the end of the list or
at the first handler that returned `true`. -/
theorem dispatch_from {σ : Type} (env : Env σ) (fuel : Nat) (c : EventCall) :
    ∀ (j : Nat) (w w1 : World σ), dispatch env fuel c j w = .returned w1 →
      ∃ cbs more extra flags,
        callbacksOf w.hermes c.id = .ok cbs ∧
        callbacksOf w1.hermes c.id = .ok (cbs ++ more) ∧
        Since w.hermes w.log w1.hermes w1.log ∧
        w1.log = w.log ++ extra ∧
        invocations extra =
          List.zipWith (fun cb b => cb.obs c.data b) ((cbs ++ more).drop j) flags ∧
        (flags = List.replicate ((cbs ++ more).length - j) false ∨
          ∃ k, j + k < (cbs ++ more).length ∧ flags = List.replicate k false ++ [true]) := by
  induction fuel with
  | zero => intro j w w1 hrun; simp [dispatch] at hrun
  | succ fuel ih =>
    intro j w w1 hrun
    obtain ⟨cbs, hcbs, hstep⟩ := dispatch_succ env fuel c j w w1 hrun
    simp only [List.get?_eq_getElem?] at hstep
    rcases hstep with ⟨hnone, rfl⟩ | ⟨callback, hsome, hcc | ⟨w0, hcc, hrest⟩⟩
    · have hj : cbs.length ≤ j := List.getElem?_eq_none_iff.mp hnone
      refine ⟨cbs, [], [], [], hcbs, by simpa using hcbs, Since.refl _ _, by simp, ?_, ?_⟩
      · simp [invocations]
      · left
        simp [Nat.sub_eq_zero_of_le hj]
    · obtain ⟨hs, extra, hlog, hinv⟩ := callCallback_effect env callback c.data w w1 true hcc
      obtain ⟨more, hmore⟩ := hs.callbacks c.id cbs hcbs
      have hj : j < cbs.length := (List.getElem?_eq_some_iff.mp hsome).1
      have hget : (cbs ++ more)[j]? = some callback := by
        rw [List.getElem?_append_left hj]; exact hsome
      refine ⟨cbs, more, extra, [true], hcbs, hmore, hs, hlog, ?_, ?_⟩
      · rw [hinv, drop_eq_cons_of_getElem? _ _ _ hget]; simp
      · right
        exact ⟨0, by simp; omega, rfl⟩
    · obtain ⟨hs, extra0, hlog0, hinv0⟩ := callCallback_effect env callback c.data w w0 false hcc
      obtain ⟨cbs1, more1, extra1, flags1, hcbs1, hmore1, hs1, hlog1, hinv1, hflags1⟩ :=
        ih (j + 1) w0 w1 hrest
      obtain ⟨more0, hmore0⟩ := hs.callbacks c.id cbs hcbs
      rw [hmore0] at hcbs1
      cases hcbs1
      have hj : j < cbs.length := (List.getElem?_eq_some_iff.mp hsome).1
      have hget : (cbs ++ (more0 ++ more1))[j]? = some callback := by
        rw [List.getElem?_append_left hj]; exact hsome
      rw [List.append_assoc] at hmore1 hinv1 hflags1
      refine ⟨cbs, more0 ++ more1, extra0 ++ extra1, false :: flags1, hcbs, hmore1,
        hs.trans hs1, by rw [hlog1, hlog0, List.append_assoc], ?_, ?_⟩
      · rw [invocations_append, hinv0, hinv1, drop_eq_cons_of_getElem? _ _ _ hget]; simp
      · have hlen : j < (cbs ++ (more0 ++ more1)).length := by
          rw [List.length_append]; omega
        rcases hflags1 with hf | ⟨k, hk, hf⟩
        · left
          rw [hf, ← List.replicate_succ]
          congr 1
          omega
        · right
          exact ⟨k + 1, by omega, by rw [hf, List.replicate_succ]; rfl⟩

/-! ## The inner loop against the callbacks run as a list -/

theorem SubscribedAt.grow {h h1 : Hermes} {id : EventID} {j : Nat} {rest : List EventCallback}
    (hs : SubscribedAt h id j rest)
    (hgrow : ∀ cbs, callbacksOf h id = .ok cbs → ∃ more, callbacksOf h1 id = .ok (cbs ++ more)) :
    SubscribedAt h1 id j rest := by
  obtain ⟨l, hl, hp⟩ := hs
  obtain ⟨more, hmore⟩ := hgrow l hl
  refine ⟨l ++ more, hmore, ?_⟩
  rw [List.drop_append_eq_append_drop]
  exact hp.trans (List.prefix_append _ _)

theorem SubscribedAt.head {h : Hermes} {id : EventID} {j : Nat} {cb : EventCallback}
    {rest : List EventCallback} (hs : SubscribedAt h id j (cb :: rest)) :
    ∃ l, callbacksOf h id = .ok l ∧ l[j]? = some cb ∧ SubscribedAt h id (j + 1) rest := by
  obtain ⟨l, hl, t, ht⟩ := hs
  have hget : l[j]? = some cb := by
    have h0 : (l.drop j)[0]? = l[j + 0]? := by rw [List.getElem?_drop]
    rw [← ht] at h0
    simpa using h0.symm
  refine ⟨l, hl, hget, l, hl, t, ?_⟩
  have h1 := drop_eq_cons_of_getElem? l j cb hget
  rw [h1] at ht
  simpa using ht

/-- The inner loop of `update` against the callbacks run as a list: when the
callback list of the event holds `rest` from position `j` on, the loop from
position `j` does what running `rest` in order does.  It ends fatally where a
handler does, it returns where a callback reports `handled`, and when the
whole of `rest` ran without that it goes on from the position after `rest`,
in the list as it is then. -/
theorem dispatch_invokeList {σ : Type} (env : Env σ) (c : EventCall)
    (rest : List EventCallback) :
    ∀ (j : Nat) (w : World σ) (fuel : Nat), SubscribedAt w.hermes c.id j rest →
      dispatch env (fuel + rest.length) c j w =
        match invokeList env c.data rest w with
        | .error f => .fatal f
        | .ok (true, w1) => .returned w1
        | .ok (false, w1) => dispatch env fuel c (j + rest.length) w1 := by
  induction rest with
  | nil => intro j w fuel _; simp [invokeList]
  | cons cb rest ih =>
    intro j w fuel hs
    obtain ⟨l, hl, hget, hs1⟩ := hs.head
    have hfuel : fuel + (cb :: rest).length = (fuel + rest.length) + 1 := by simp; omega
    rw [hfuel]
    simp only [dispatch, hl, List.get?_eq_getElem?, hget, invokeList]
    cases hcc : callCallback env cb c.data w with
    | error f => rfl
    | ok p =>
      obtain ⟨b, w0⟩ := p
      cases b with
      | true => rfl
      | false =>
        simp only
        have hgrow := (callCallback_effect env cb c.data w w0 false hcc).1
        have := ih (j + 1) w0 fuel (hs1.grow (fun cbs hc => hgrow.callbacks c.id cbs hc))
        have e : j + 1 + rest.length = j + (cb :: rest).length := by simp; omega
        rw [e] at this
        exact this

/-- What running a list of callbacks leaves in the observations: the
callbacks invoked are those of the list in order from the first; when one
reported `handled` they are exactly those up to and including the first that
did, and otherwise all of them were invoked. -/
theorem invokeList_effect {σ : Type} (env : Env σ) (data : Ptr) :
    ∀ (l : List EventCallback) (w w1 : World σ) (b : Bool),
      invokeList env data l w = .ok (b, w1) →
      Since w.hermes w.log w1.hermes w1.log ∧
      ∃ extra flags, w1.log = w.log ++ extra ∧
        invocations extra = List.zipWith (fun cb b => cb.obs data b) l flags ∧
        (b = true → ∃ k, k < l.length ∧ flags = List.replicate k false ++ [true]) ∧
        (b = false → flags = List.replicate l.length false) := by
  intro l
  induction l with
  | nil =>
    intro w w1 b hrun
    simp only [invokeList, Except.ok.injEq, Prod.mk.injEq] at hrun
    obtain ⟨rfl, rfl⟩ := hrun
    exact ⟨Since.refl _ _, [], [], by simp, by simp [invocations], by simp, by simp⟩
  | cons cb rest ih =>
    intro w w1 b hrun
    simp only [invokeList] at hrun
    cases hcc : callCallback env cb data w with
    | error f => simp [hcc] at hrun
    | ok p =>
      obtain ⟨b0, w0⟩ := p
      cases b0 with
      | true =>
        simp only [hcc, Except.ok.injEq, Prod.mk.injEq] at hrun
        obtain ⟨rfl, rfl⟩ := hrun
        obtain ⟨hs, extra, hlog, hinv⟩ := callCallback_effect env cb data w w0 true hcc
        exact ⟨hs, extra, [true], hlog, by simp [hinv], fun _ => ⟨0, by simp, rfl⟩, by simp⟩
      | false =>
        simp only [hcc] at hrun
        obtain ⟨hs, extra0, hlog0, hinv0⟩ := callCallback_effect env cb data w w0 false hcc
        obtain ⟨hs1, extra1, flags1, hlog1, hinv1, ht, hf⟩ := ih w0 w1 b hrun
        refine ⟨hs.trans hs1, extra0 ++ extra1, false :: flags1,
          by rw [hlog1, hlog0, List.append_assoc],
          by rw [invocations_append, hinv0, hinv1]; simp, ?_, ?_⟩
        · intro hb
          obtain ⟨k, hk, hflags⟩ := ht hb
          exact ⟨k + 1, by simp; omega, by rw [hflags, List.replicate_succ]; rfl⟩
        · intro hb
          rw [hf hb, List.length_cons, List.replicate_succ]

/-- C1.  Let `c` be the call at position `i` of the queue and `cbs` the
callback list of its event, in subscription order, when the outer loop of
`update` comes to `c`.  Whatever the handlers do, the loops then do what
running `cbs` in order does.  When a handler ends the program, so does
`update`.  When the callback at the least position `k` to report `handled`
has run, the dispatch of `c` is over and `update` goes on with the call at
position `i + 1`: the callbacks invoked for `c` are exactly those at positions
`0..k`, in order, each with `c.data`, and none after position `k`.  When no
callback of `cbs` reports `handled`, all of them are invoked in order, and the
inner loop goes on at the position after `cbs`, where it ends at once unless
a callback was subscribed to the event meanwhile. -/
theorem update_short_circuit {σ : Type} (env : Env σ) (i : Nat) (w : World σ) (c : EventCall)
    (cbs : List EventCallback) (hcall : w.hermes.calls.get? i = some c)
    (hcbs : callbacksOf w.hermes c.id = .ok cbs) :
    (∀ fuel, dispatch env (fuel + cbs.length) c 0 { w with log := w.log ++ [.dispatch c] } =
        match invokeList env c.data cbs { w with log := w.log ++ [.dispatch c] } with
        | .error f => .fatal f
        | .ok (true, w1) => .returned w1
        | .ok (false, w1) => dispatch env fuel c cbs.length w1) ∧
    (∀ fuel, drain env (fuel + cbs.length + 1) i w =
        match invokeList env c.data cbs { w with log := w.log ++ [.dispatch c] } with
        | .error f => .fatal f
        | .ok (true, w1) => drain env (fuel + cbs.length) (i + 1) w1
        | .ok (false, w1) =>
          match dispatch env fuel c cbs.length w1 with
          | .returned w2 => drain env (fuel + cbs.length) (i + 1) w2
          | .fatal f => .fatal f
          | .unfinished => .unfinished) ∧
    (i = 0 → ∀ fuel,
      let rest : World σ → Outcome (World σ) := fun w1 =>
        match drain env (fuel + cbs.length) 1 w1 with
        | .returned wd =>
          (match clearAll wd.hermes with
           | .ok h => .returned { wd with hermes := h }
           | .error f => .fatal f)
        | .fatal f => .fatal f
        | .unfinished => .unfinished
      update env (fuel + cbs.length + 1) w =
        match invokeList env c.data cbs { w with log := w.log ++ [.dispatch c] } with
        | .error f => .fatal f
        | .ok (true, w1) => rest w1
        | .ok (false, w1) =>
          match dispatch env fuel c cbs.length w1 with
          | .returned w2 => rest w2
          | .fatal f => .fatal f
          | .unfinished => .unfinished) ∧
    ∀ b w1, invokeList env c.data cbs { w with log := w.log ++ [.dispatch c] } = .ok (b, w1) →
      ∃ extra flags, w1.log = w.log ++ [.dispatch c] ++ extra ∧
        invocations extra = List.zipWith (fun cb b => cb.obs c.data b) cbs flags ∧
        (b = true → ∃ k, k < cbs.length ∧ flags = List.replicate k false ++ [true]) ∧
        (b = false → flags = List.replicate cbs.length false) ∧
        (b = false → callbacksOf w1.hermes c.id = .ok cbs →
          ∀ fuel, dispatch env (fuel + 1) c cbs.length w1 = .returned w1) := by
  have hsub : SubscribedAt ({ w with log := w.log ++ [.dispatch c] } : World σ).hermes c.id 0 cbs :=
    ⟨cbs, hcbs, by simp⟩
  have hd : ∀ fuel,
      dispatch env (fuel + cbs.length) c 0 { w with log := w.log ++ [.dispatch c] } =
        match invokeList env c.data cbs { w with log := w.log ++ [.dispatch c] } with
        | .error f => .fatal f
        | .ok (true, w1) => .returned w1
        | .ok (false, w1) => dispatch env fuel c cbs.length w1 := by
    intro fuel
    have := dispatch_invokeList env c cbs 0 { w with log := w.log ++ [.dispatch c] } fuel hsub
    simpa using this
  have hdr : ∀ fuel, drain env (fuel + cbs.length + 1) i w =
      match invokeList env c.data cbs { w with log := w.log ++ [.dispatch c] } with
      | .error f => .fatal f
      | .ok (true, w1) => drain env (fuel + cbs.length) (i + 1) w1
      | .ok (false, w1) =>
        match dispatch env fuel c cbs.length w1 with
        | .returned w2 => drain env (fuel + cbs.length) (i + 1) w2
        | .fatal f => .fatal f
        | .unfinished => .unfinished := by
    intro fuel
    simp only [drain, hcall, hd fuel]
    cases hrun : invokeList env c.data cbs { w with log := w.log ++ [.dispatch c] } with
    | error f => rfl
    | ok p =>
      obtain ⟨b, w1⟩ := p
      cases b <;> rfl
  refine ⟨hd, hdr, ?_, ?_⟩
  · intro hi fuel
    subst hi
    simp only [update, hdr fuel]
    cases hrun : invokeList env c.data cbs { w with log := w.log ++ [.dispatch c] } with
    | error f => rfl
    | ok p =>
      obtain ⟨b, w1⟩ := p
      cases b with
      | true => rfl
      | false =>
        simp only
        cases dispatch env fuel c cbs.length w1 <;> rfl
  · intro b w1 hrun
    obtain ⟨_, extra, flags, hlog, hinv, ht, hf⟩ := invokeList_effect env c.data cbs _ w1 b hrun
    refine ⟨extra, flags, hlog, hinv, ht, hf, ?_⟩
    intro _ hsame fuel
    simp [dispatch, hsame]

/-- C1 on the example: the first call of the queue has three subscribers, of
which the second reports `handled`; the first two are invoked, the third is
not, and `update` goes on with the second call. -/
theorem update_short_circuit_witness :
    ∃ w w1, runOps exampleEnv exampleSetup (World.start 0) = .returned w ∧
      w.hermes.calls.get? 0 = some { id := 0, data := some 0 } ∧
      callbacksOf w.hermes 0 =
        .ok [{ callback := 0, type := .Function }, { callback := 1, type := .Function },
             { callback := 0, type := .Function }] ∧
      invokeList exampleEnv (some 0)
        [{ callback := 0, type := .Function }, { callback := 1, type := .Function },
         { callback := 0, type := .Function }]
        { w with log := w.log ++ [.dispatch { id := 0, data := some 0 }] } = .ok (true, w1) ∧
      w1.log = w.log ++ [.dispatch { id := 0, data := some 0 },
        .function 0 (some 0) false, .function 1 (some 0) true] ∧
      (∃ w2, update exampleEnv 8 w = .returned w2 ∧
        w2.log = w.log ++
          [.dispatch { id := 0, data := some 0 },
           .function 0 (some 0) false, .function 1 (some 0) true,
           .dispatch { id := 0, data := some 6 },
           .function 0 (some 6) false, .function 1 (some 6) true]) ∧
      (∀ fuel, dispatch exampleEnv (fuel + 3) { id := 0, data := some 0 } 0
        { w with log := w.log ++ [.dispatch { id := 0, data := some 0 }] } = .returned w1) ∧
      ∀ fuel, drain exampleEnv (fuel + 3 + 1) 0 w = drain exampleEnv (fuel + 3) 1 w1 := by
  refine ⟨_, _, rfl, rfl, rfl, rfl, rfl, ⟨_, rfl, rfl⟩, ?_, ?_⟩
  · exact (update_short_circuit exampleEnv 0 _ { id := 0, data := some 0 }
      [{ callback := 0, type := .Function }, { callback := 1, type := .Function },
       { callback := 0, type := .Function }] (by rfl) (by rfl)).1
  · exact (update_short_circuit exampleEnv 0 _ { id := 0, data := some 0 }
      [{ callback := 0, type := .Function }, { callback := 1, type := .Function },
       { callback := 0, type := .Function }] (by rfl) (by rfl)).2.1

/-! ## The outer loop: the queue -/

/-- The outer loop of `update` from position `i`: the queue grew at its end by
the calls triggered meanwhile, and the calls taken from the queue are the calls
of the final queue from position `i` on, in order. -/
theorem drain_from {σ : Type} (env : Env σ) (fuel : Nat) :
    ∀ (i : Nat) (w w1 : World σ), drain env fuel i w = .returned w1 →
      ∃ extra new, w1.log = w.log ++ extra ∧
        w1.hermes.calls = w.hermes.calls ++ new ∧
        triggered extra = new.map (fun c => c.id) ∧
        dispatched extra = w1.hermes.calls.drop i := by
  induction fuel with
  | zero => intro i w w1 hrun; simp [drain] at hrun
  | succ fuel ih =>
    intro i w w1 hrun
    rcases drain_succ env fuel i w w1 hrun with ⟨hnone, rfl⟩ | ⟨c, w0, hsome, hd, hrest⟩
    · simp only [List.get?_eq_getElem?] at hnone
      have hi : w1.hermes.calls.length ≤ i := List.getElem?_eq_none_iff.mp hnone
      exact ⟨[], [], by simp, by simp, rfl, by simp [dispatched, List.drop_eq_nil_of_le hi]⟩
    · simp only [List.get?_eq_getElem?] at hsome
      obtain ⟨_, _, _, _, _, _, hs, _⟩ := dispatch_from env fuel c 0 _ w0 hd
      obtain ⟨e0, n0, hlog0, hdisp0, hcalls0, htrig0, _⟩ := hs
      obtain ⟨e1, n1, hlog1, hcalls1, htrig1, hdisp1⟩ := ih (i + 1) w0 w1 hrest
      simp only at hlog0 hcalls0
      have hi : i < w.hermes.calls.length := (List.getElem?_eq_some_iff.mp hsome).1
      have hget : w1.hermes.calls[i]? = some c := by
        rw [hcalls1, hcalls0, List.append_assoc, List.getElem?_append_left hi]
        exact hsome
      refine ⟨[.dispatch c] ++ e0 ++ e1, n0 ++ n1, ?_, ?_, ?_, ?_⟩
      · rw [hlog1, hlog0]; simp
      · rw [hcalls1, hcalls0]; simp
      · simp only [triggered_append, htrig0, htrig1, List.map_append]
        simp [triggered]
      · simp only [dispatched_append, hdisp0, hdisp1, drop_eq_cons_of_getElem? _ _ _ hget]
        simp [dispatched]

/-- The steps of `update`, when it returns. -/
theorem update_returned {σ : Type} (env : Env σ) (fuel : Nat) (w w1 : World σ)
    (hrun : update env fuel w = .returned w1) :
    ∃ wd buf, drain env fuel 0 w = .returned wd ∧ wd.hermes.dataBuffer = some buf ∧
      w1 = { wd with hermes := { wd.hermes with calls := [], dataBuffer := some buf.clear } } := by
  unfold update at hrun
  cases hd : drain env fuel 0 w with
  | returned wd =>
    simp only [hd, clearAll] at hrun
    cases hb : wd.hermes.dataBuffer with
    | none => simp [hb] at hrun
    | some buf =>
      simp only [hb, Outcome.returned.injEq] at hrun
      exact ⟨wd, buf, rfl, hb, hrun.symm⟩
  | fatal f => simp [hd] at hrun
  | unfinished => simp [hd] at hrun

/-- C4.  Whenever `update` returns, the call queue is empty and the arena
used size is 0, and everything else is as the loops left it when the last
handler returned: the name map, the registered count, the event records with
their payload sizes and callback lists. -/
theorem update_post_state {σ : Type} (env : Env σ) (fuel : Nat) (w w1 : World σ)
    (hrun : update env fuel w = .returned w1) :
    w1.hermes.calls = [] ∧ getCurrentlyUsedDataBufferSize w1.hermes = .ok 0 ∧
      ∃ wd, drain env fuel 0 w = .returned wd ∧
        w1.hermes.eventMap = wd.hermes.eventMap ∧
        w1.hermes.registeredEventCount = wd.hermes.registeredEventCount ∧
        w1.hermes.maxAvailableEventTypeCount = wd.hermes.maxAvailableEventTypeCount ∧
        w1.hermes.events = wd.hermes.events ∧ w1.user = wd.user := by
  obtain ⟨wd, buf, hd, _, rfl⟩ := update_returned env fuel w w1 hrun
  exact ⟨rfl, rfl, wd, hd, rfl, rfl, rfl, rfl, rfl⟩

/-! ## Handlers that neither trigger nor subscribe -/

theorem Call.exec_quiet (c : Call) (hq : c.quiet) (h h1 : Hermes) (r : Reply)
    (hr : c.exec h = .ok (r, h1)) :
    h1.calls = h.calls ∧ ∀ id cbs, callbacksOf h id = .ok cbs → callbacksOf h1 id = .ok cbs := by
  cases c with
  | registerEvent name dataSize =>
    simp only [Call.exec] at hr
    split at hr
    · rename_i id h2 hreg
      simp only [Except.ok.injEq, Prod.mk.injEq] at hr
      obtain ⟨_, rfl⟩ := hr
      obtain ⟨hcalls, _, hcb⟩ := registerEvent_effect _ _ _ _ _ hreg
      exact ⟨hcalls, hcb⟩
    · simp at hr
  | getEventIndex name =>
    simp only [Call.exec] at hr
    split at hr
    · rename_i id h2 hget
      simp only [Except.ok.injEq, Prod.mk.injEq] at hr
      obtain ⟨_, rfl⟩ := hr
      obtain ⟨rfl, _⟩ := getEventIndex_effect _ _ _ _ hget
      exact ⟨rfl, fun _ _ hc => hc⟩
    · simp at hr
  | triggerEvent id t args => exact absurd hq (by simp [Call.quiet])
  | triggerEvent0 id => exact absurd hq (by simp [Call.quiet])
  | subscribe id callback => exact absurd hq (by simp [Call.quiet])
  | subscribeMethod id subscribedInstance callback => exact absurd hq (by simp [Call.quiet])
  | convert ptr size sizes =>
    simp only [Call.exec] at hr
    split at hr
    · simp only [Except.ok.injEq, Prod.mk.injEq] at hr
      rw [← hr.2]
      exact ⟨rfl, fun _ _ hc => hc⟩
    · simp at hr
  | getRegisteredEventCount =>
    simp only [Call.exec, Except.ok.injEq, Prod.mk.injEq] at hr
    rw [← hr.2]
    exact ⟨rfl, fun _ _ hc => hc⟩
  | getMaxEventTypeCount =>
    simp only [Call.exec, Except.ok.injEq, Prod.mk.injEq] at hr
    rw [← hr.2]
    exact ⟨rfl, fun _ _ hc => hc⟩
  | getMaxDataBufferSize =>
    simp only [Call.exec] at hr
    split at hr
    · simp only [Except.ok.injEq, Prod.mk.injEq] at hr
      rw [← hr.2]
      exact ⟨rfl, fun _ _ hc => hc⟩
    · simp at hr
  | getCurrentlyUsedDataBufferSize =>
    simp only [Call.exec] at hr
    split at hr
    · simp only [Except.ok.injEq, Prod.mk.injEq] at hr
      rw [← hr.2]
      exact ⟨rfl, fun _ _ hc => hc⟩
    · simp at hr

theorem SameSubscriptions.quiet_call {h0 h h1 : Hermes} (c : Call) (hq : c.quiet) (r : Reply)
    (hs : SameSubscriptions h0 h) (hr : c.exec h = .ok (r, h1)) : SameSubscriptions h0 h1 := by
  obtain ⟨hcalls, hcb⟩ := Call.exec_quiet c hq h h1 r hr
  exact ⟨hcalls.trans hs.1, fun id cbs hc => hcb id cbs (hs.2 id cbs hc)⟩

theorem callCallback_quiet {σ : Type} (env : Env σ) (henv : env.Uses Call.quiet)
    (callback : EventCallback) (data : Ptr) (w w1 : World σ) (b : Bool)
    (hrun : callCallback env callback data w = .ok (b, w1)) :
    SameSubscriptions w.hermes w1.hermes :=
  callCallback_preserves env Call.quiet henv (fun h _ => SameSubscriptions w.hermes h)
    (fun c _ r _ _ hq hs hr => hs.quiet_call c hq r hr) (fun _ _ _ _ _ hs => hs)
    callback data w w1 b ⟨rfl, fun _ _ hc => hc⟩ hrun

/-- With handlers that neither trigger nor subscribe, the inner loop of
`update` from position `j` invokes the rest of the callback list in order
until one reports `handled`. -/
theorem dispatch_quiet {σ : Type} (env : Env σ) (henv : env.Uses Call.quiet) (c : EventCall)
    (cbs : List EventCallback) (rest : List EventCallback) :
    ∀ (j : Nat) (w : World σ) (fuel : Nat), callbacksOf w.hermes c.id = .ok cbs →
      cbs.drop j = rest → rest.length < fuel →
      dispatch env fuel c j w = Outcome.ofExcept (invokeInOrder env c.data rest w) := by
  induction rest with
  | nil =>
    intro j w fuel hcbs hdrop hfuel
    obtain ⟨fuel, rfl⟩ : ∃ n, fuel = n + 1 := ⟨fuel - 1, by simp at hfuel; omega⟩
    have hj : cbs.length ≤ j := List.drop_eq_nil_iff.mp hdrop
    simp [dispatch, hcbs, List.getElem?_eq_none hj, invokeInOrder, Outcome.ofExcept]
  | cons cb rest ih =>
    intro j w fuel hcbs hdrop hfuel
    obtain ⟨fuel, rfl⟩ : ∃ n, fuel = n + 1 := ⟨fuel - 1, by simp at hfuel; omega⟩
    have hj : j < cbs.length := by
      by_contra hn
      rw [List.drop_eq_nil_of_le (by omega)] at hdrop
      cases hdrop
    have hget : cbs[j]? = some cb := by
      rw [List.getElem?_eq_getElem hj]
      have := List.drop_eq_getElem_cons hj
      rw [hdrop] at this
      simp only [List.cons.injEq] at this
      rw [this.1]
    have hdrop1 : cbs.drop (j + 1) = rest := by
      have := List.drop_eq_getElem_cons hj
      rw [hdrop] at this
      simp only [List.cons.injEq] at this
      exact this.2.symm
    simp only [dispatch, hcbs, List.get?_eq_getElem?, hget, invokeInOrder]
    cases hcc : callCallback env cb c.data w with
    | error f => simp [Outcome.ofExcept]
    | ok p =>
      obtain ⟨b, w0⟩ := p
      cases b with
      | true => simp [Outcome.ofExcept]
      | false =>
        simp only
        have hs := callCallback_quiet env henv cb c.data w w0 false hcc
        exact ih (j + 1) w0 fuel (hs.2 _ _ hcbs) hdrop1 (by simp at hfuel; omega)

theorem dispatch_quiet_same {σ : Type} (env : Env σ) (henv : env.Uses Call.quiet)
    (fuel : Nat) (c : EventCall) (j : Nat) (w w1 : World σ)
    (hrun : dispatch env fuel c j w = .returned w1) : SameSubscriptions w.hermes w1.hermes :=
  dispatch_preserves env Call.quiet henv (fun h _ => SameSubscriptions w.hermes h)
    (fun c _ r _ _ hq hs hr => hs.quiet_call c hq r hr) (fun _ _ _ _ _ hs => hs)
    fuel c j w w1 ⟨rfl, fun _ _ hc => hc⟩ hrun

/-- With handlers that neither trigger nor subscribe, the outer loop of
`update` from position `i` dispatches the rest of the queue in order, each
call from the first callback of its event, once the bound on the steps is
large enough. -/
theorem drain_quiet {σ : Type} (env : Env σ) (henv : env.Uses Call.quiet)
    (rest : List EventCall) :
    ∀ (i : Nat) (w : World σ), w.hermes.calls.drop i = rest →
      ∃ N, ∀ fuel, N ≤ fuel →
        drain env fuel i w = Outcome.ofExcept (flushInOrder env rest w) := by
  induction rest with
  | nil =>
    intro i w hdrop
    refine ⟨1, fun fuel hfuel => ?_⟩
    obtain ⟨fuel, rfl⟩ : ∃ n, fuel = n + 1 := ⟨fuel - 1, by omega⟩
    have hi : w.hermes.calls.length ≤ i := List.drop_eq_nil_iff.mp hdrop
    simp [drain, List.getElem?_eq_none hi, flushInOrder, Outcome.ofExcept]
  | cons c rest ih =>
    intro i w hdrop
    have hi : i < w.hermes.calls.length := by
      by_contra hn
      rw [List.drop_eq_nil_of_le (by omega)] at hdrop
      cases hdrop
    have hcons := List.drop_eq_getElem_cons hi
    rw [hdrop] at hcons
    simp only [List.cons.injEq] at hcons
    have hget : w.hermes.calls[i]? = some c := by
      rw [List.getElem?_eq_getElem hi, hcons.1]
    cases hcbs : callbacksOf w.hermes c.id with
    | error f =>
      refine ⟨2, fun fuel hfuel => ?_⟩
      obtain ⟨fuel, rfl⟩ : ∃ n, fuel = n + 2 := ⟨fuel - 2, by omega⟩
      simp [drain, List.get?_eq_getElem?, hget, dispatch, hcbs, flushInOrder, Outcome.ofExcept]
    | ok cbs =>
      cases hinv : invokeInOrder env c.data cbs { w with log := w.log ++ [.dispatch c] } with
      | error f =>
        refine ⟨cbs.length + 2, fun fuel hfuel => ?_⟩
        obtain ⟨fuel, rfl⟩ : ∃ n, fuel = n + 1 := ⟨fuel - 1, by omega⟩
        have hd := dispatch_quiet env henv c cbs cbs 0 { w with log := w.log ++ [.dispatch c] }
          fuel hcbs rfl (by omega)
        simp [drain, List.get?_eq_getElem?, hget, hd, hinv, flushInOrder, hcbs,
          Outcome.ofExcept]
      | ok w0 =>
        have hd0 := dispatch_quiet env henv c cbs cbs 0 { w with log := w.log ++ [.dispatch c] }
          (cbs.length + 1) hcbs rfl (by omega)
        rw [hinv] at hd0
        have hs := dispatch_quiet_same env henv _ c 0 _ w0 hd0
        obtain ⟨N, hN⟩ := ih (i + 1) w0 (by rw [hs.1]; exact hcons.2.symm)
        refine ⟨max (cbs.length + 2) (N + 1), fun fuel hfuel => ?_⟩
        obtain ⟨fuel, rfl⟩ : ∃ n, fuel = n + 1 := ⟨fuel - 1, by omega⟩
        have hd := dispatch_quiet env henv c cbs cbs 0 { w with log := w.log ++ [.dispatch c] }
          fuel hcbs rfl (by omega)
        simp [drain, List.get?_eq_getElem?, hget, hd, hinv, flushInOrder, hcbs,
          Outcome.ofExcept, hN fuel (by omega)]

/-- C2.  With handlers that neither trigger nor subscribe, `update`, given
enough steps, does exactly this: the calls of the queue are dispatched in
queue order, each one to the callbacks of its event in subscription order
starting from the first callback and stopping at the first that reports
`handled`; then the queue and the arena are cleared.  A handler reporting
`handled` ends the dispatch of its own call only. -/
theorem update_in_call_order {σ : Type} (env : Env σ) (henv : env.Uses Call.quiet)
    (w : World σ) : ∃ N, ∀ fuel, N ≤ fuel → update env fuel w = updateInOrder env w := by
  obtain ⟨N, hN⟩ := drain_quiet env henv w.hermes.calls 0 w rfl
  refine ⟨N, fun fuel hfuel => ?_⟩
  unfold update updateInOrder
  rw [hN fuel hfuel]
  cases flushInOrder env w.hermes.calls w with
  | error f => rfl
  | ok w1 => rfl

/-! ## The name map -/

theorem registerEvent_map (h h1 : Hermes) (name : String) (dataSize : Nat) (id : EventID)
    (hr : registerEvent h name dataSize = .ok (id, h1)) :
    (h.eventMap.lookup name = some id ∧ h1 = h) ∨
      (h.eventMap.lookup name = none ∧ h1.eventMap = mapAssign h.eventMap name id) := by
  unfold registerEvent at hr
  split at hr
  · split at hr
    · rename_i id0 hk
      simp only [Except.ok.injEq, Prod.mk.injEq] at hr
      obtain ⟨rfl, rfl⟩ := hr
      exact Or.inl ⟨hk, rfl⟩
    · rename_i hk
      split at hr
      · simp at hr
      · simp only [Except.ok.injEq, Prod.mk.injEq] at hr
        obtain ⟨rfl, rfl⟩ := hr
        exact Or.inr ⟨hk, rfl⟩
  · simp at hr

/-- An interface call other than `registerEvent` leaves the name map alone and
is not observed as a registration. -/
theorem Call.exec_map (c : Call) (h h1 : Hermes) (r : Reply) (hr : c.exec h = .ok (r, h1)) :
    (∃ name dataSize id, c = .registerEvent name dataSize ∧ r = .number id ∧
        Hermes.registerEvent h name dataSize = .ok (id, h1)) ∨
      (h1.eventMap = h.eventMap ∧ registrations (c.obs r) = []) := by
  cases c with
  | registerEvent name dataSize =>
    simp only [Call.exec] at hr
    split at hr
    · rename_i id h2 hreg
      simp only [Except.ok.injEq, Prod.mk.injEq] at hr
      obtain ⟨rfl, rfl⟩ := hr
      exact Or.inl ⟨name, dataSize, id, rfl, rfl, hreg⟩
    · simp at hr
  | getEventIndex name =>
    simp only [Call.exec] at hr
    split at hr
    · rename_i id h2 hget
      simp only [Except.ok.injEq, Prod.mk.injEq] at hr
      obtain ⟨rfl, rfl⟩ := hr
      obtain ⟨rfl, _⟩ := getEventIndex_effect _ _ _ _ hget
      exact Or.inr ⟨rfl, rfl⟩
    · simp at hr
  | triggerEvent id t args =>
    simp only [Call.exec] at hr
    split at hr
    · rename_i h2 htr
      simp only [Except.ok.injEq, Prod.mk.injEq] at hr
      obtain ⟨rfl, rfl⟩ := hr
      exact Or.inr ⟨(triggerEvent_effect _ _ _ _ _ htr).2.2.1, rfl⟩
    · simp at hr
  | triggerEvent0 id =>
    simp only [Call.exec] at hr
    split at hr
    · rename_i h2 htr
      simp only [Except.ok.injEq, Prod.mk.injEq] at hr
      obtain ⟨rfl, rfl⟩ := hr
      obtain ⟨rfl, _⟩ := _triggerEvent_effect _ _ _ _ htr
      exact Or.inr ⟨rfl, rfl⟩
    · simp at hr
  | subscribe id callback =>
    simp only [Call.exec] at hr
    split at hr
    · rename_i h2 hsub
      simp only [Except.ok.injEq, Prod.mk.injEq] at hr
      obtain ⟨rfl, rfl⟩ := hr
      obtain ⟨_, hpush⟩ := subscribe_effect _ _ _ _ hsub
      exact Or.inr ⟨(pushCallback_effect _ _ _ _ hpush).2.2.1, rfl⟩
    · simp at hr
  | subscribeMethod id subscribedInstance callback =>
    simp only [Call.exec] at hr
    split at hr
    · rename_i h2 hsub
      simp only [Except.ok.injEq, Prod.mk.injEq] at hr
      obtain ⟨rfl, rfl⟩ := hr
      obtain ⟨_, hpush⟩ := subscribeMethod_effect _ _ _ _ _ hsub
      exact Or.inr ⟨(pushCallback_effect _ _ _ _ hpush).2.2.1, rfl⟩
    · simp at hr
  | convert ptr size sizes =>
    simp only [Call.exec] at hr
    split at hr
    · simp only [Except.ok.injEq, Prod.mk.injEq] at hr
      rw [← hr.2, ← hr.1]
      exact Or.inr ⟨rfl, rfl⟩
    · simp at hr
  | getRegisteredEventCount =>
    simp only [Call.exec, Except.ok.injEq, Prod.mk.injEq] at hr
    rw [← hr.2, ← hr.1]
    exact Or.inr ⟨rfl, rfl⟩
  | getMaxEventTypeCount =>
    simp only [Call.exec, Except.ok.injEq, Prod.mk.injEq] at hr
    rw [← hr.2, ← hr.1]
    exact Or.inr ⟨rfl, rfl⟩
  | getMaxDataBufferSize =>
    simp only [Call.exec] at hr
    split at hr
    · simp only [Except.ok.injEq, Prod.mk.injEq] at hr
      rw [← hr.2, ← hr.1]
      exact Or.inr ⟨rfl, rfl⟩
    · simp at hr
  | getCurrentlyUsedDataBufferSize =>
    simp only [Call.exec] at hr
    split at hr
    · simp only [Except.ok.injEq, Prod.mk.injEq] at hr
      rw [← hr.2, ← hr.1]
      exact Or.inr ⟨rfl, rfl⟩
    · simp at hr

theorem shutdown_effect (h h1 : Hermes) (hr : shutdown h = .ok h1) :
    h1 = { h with events := none, dataBuffer := none } := by
  unfold shutdown at hr
  split at hr
  · split at hr
    · simp only [Except.ok.injEq] at hr
      exact hr.symm
    · simp at hr
  · simp only [Except.ok.injEq] at hr
    exact hr.symm

theorem Registered.of_eq {h h1 : Hermes} {log extra : List Obs} (hs : Registered h log)
    (hmap : h1.eventMap = h.eventMap) (hreg : registrations extra = []) :
    Registered h1 (log ++ extra) := by
  intro name id
  rw [registrations_append, hreg, List.append_nil, hmap]
  exact hs name id

theorem Registered.step {h h1 : Hermes} {log : List Obs} (c : Call) (r : Reply)
    (hs : Registered h log) (hr : c.exec h = .ok (r, h1)) : Registered h1 (log ++ c.obs r) := by
  rcases Call.exec_map c h h1 r hr with ⟨name, dataSize, id, rfl, rfl, hreg⟩ | ⟨hmap, hnone⟩
  · intro x i
    have hobs : registrations ((Call.registerEvent name dataSize).obs (.number id)) =
        [(name, id)] := rfl
    rw [registrations_append, hobs, List.mem_append, List.mem_singleton, hs x i]
    rcases registerEvent_map h h1 name dataSize id hreg with ⟨hk, rfl⟩ | ⟨hk, hmap⟩
    · constructor
      · rintro (hx | hx)
        · exact hx
        · cases hx
          exact hk
      · exact Or.inl
    · rw [hmap]
      by_cases hx : x = name
      · subst hx
        rw [lookup_mapAssign_self _ _ _ hk, hk]
        simp [eq_comm]
      · rw [lookup_mapAssign_other _ _ _ _ hk hx]
        simp [hx]
  · exact hs.of_eq hmap hnone

/-- The loops of `update` keep the name map in step with the registrations. -/
theorem Registered.drain {σ : Type} (env : Env σ) (fuel i : Nat) (w w1 : World σ)
    (hs : Registered w.hermes w.log) (hrun : drain env fuel i w = .returned w1) :
    Registered w1.hermes w1.log :=
  drain_preserves env (fun _ => True) (Env.uses_anything env) Registered
    (fun c _ r _ _ _ hs hr => hs.step c r hr)
    (fun _ _ cb data b hs => hs.of_eq rfl (obs_filters cb data b).2.2.2)
    (fun _ _ _ hs => hs.of_eq rfl rfl) fuel i w w1 hs hrun

theorem Registered.op {σ : Type} (env : Env σ) (op : Op) (w w1 : World σ)
    (hs : Registered w.hermes w.log) (hrun : op.run env w = .returned w1) :
    Registered w1.hermes w1.log := by
  cases op with
  | init eventTypeCount bufferSize =>
    simp only [Op.run, Outcome.returned.injEq] at hrun
    subst hrun
    exact hs
  | shutdown =>
    simp only [Op.run] at hrun
    cases hsd : Hermes.shutdown w.hermes with
    | error f => simp [hsd] at hrun
    | ok h1 =>
      simp only [hsd, Outcome.returned.injEq] at hrun
      subst hrun
      rw [shutdown_effect _ _ hsd]
      exact hs
  | call c =>
    simp only [Op.run] at hrun
    split at hrun
    · rename_i r h hexec
      simp only [Outcome.returned.injEq] at hrun
      subst hrun
      exact hs.step c r hexec
    · simp at hrun
  | update fuel =>
    simp only [Op.run] at hrun
    obtain ⟨wd, buf, hd, _, rfl⟩ := update_returned env fuel w w1 hrun
    exact Registered.drain env fuel 0 w wd hs hd

theorem Registered.runOps {σ : Type} (env : Env σ) (ops : List Op) :
    ∀ (w w1 : World σ), Registered w.hermes w.log → runOps env ops w = .returned w1 →
      Registered w1.hermes w1.log := by
  induction ops with
  | nil =>
    intro w w1 hs hrun
    simp only [Hermes.runOps, Outcome.returned.injEq] at hrun
    subst hrun
    exact hs
  | cons op rest ih =>
    intro w w1 hs hrun
    simp only [Hermes.runOps] at hrun
    cases hop : op.run env w with
    | returned w0 =>
      simp only [hop] at hrun
      exact ih w0 w1 (Registered.op env op w w0 hs hop) hrun
    | fatal f => simp [hop] at hrun
    | unfinished => simp [hop] at hrun

/-- C9.  After any host program that ran to its end, `getEventIndex(name)`
stops at its assertion exactly when no `registerEvent(name, _)` call has
returned, and otherwise returns the id that `registerEvent` returned for the
name, leaving the instance as it was. -/
theorem getEventIndex_registered {σ : Type} (env : Env σ) (ops : List Op) (user : σ)
    (w : World σ) (hrun : runOps env ops (World.start user) = .returned w) (name : String) :
    (getEventIndex w.hermes name = .error (.assertion "unknown event name") ↔
        ∀ id, (name, id) ∉ registrations w.log) ∧
      ∀ id, (name, id) ∈ registrations w.log →
        getEventIndex w.hermes name = .ok (id, w.hermes) := by
  have hs : Registered w.hermes w.log :=
    Registered.runOps env ops (World.start user) w
      (fun name id => by simp [World.start, registrations, instance0]) hrun
  constructor
  · unfold getEventIndex
    cases hk : w.hermes.eventMap.lookup name with
    | none =>
      simp only [true_iff]
      intro id hmem
      rw [hs name id, hk] at hmem
      cases hmem
    | some id0 =>
      constructor
      · intro hne
        cases hne
      · intro hall
        exact absurd ((hs name id0).mpr hk) (hall id0)
  · intro id hmem
    unfold getEventIndex
    rw [(hs name id).mp hmem]

/-! ## The example host program -/

/-- C2 on the example: both calls of the queue are dispatched from the first
subscriber, although the second subscriber reported `handled` for the first
call. -/
theorem update_in_call_order_witness :
    ∃ w, runOps exampleEnv exampleSetup (World.start 0) = .returned w ∧
      (∃ N, ∀ fuel, N ≤ fuel → update exampleEnv fuel w = updateInOrder exampleEnv w) ∧
      ∃ w1, updateInOrder exampleEnv w = .returned w1 ∧
        w1.log = w.log ++
          [.dispatch { id := 0, data := some 0 },
           .function 0 (some 0) false, .function 1 (some 0) true,
           .dispatch { id := 0, data := some 6 },
           .function 0 (some 6) false, .function 1 (some 6) true] :=
  ⟨_, rfl,
    update_in_call_order exampleEnv ⟨fun _ _ _ => trivial, fun _ _ _ _ => trivial⟩ _,
    _, rfl, rfl⟩

/-- C4 on the example: two queued calls holding 12 arena bytes, none and 0
after `update`. -/
theorem update_post_state_witness :
    ∃ w w1, runOps exampleEnv exampleSetup (World.start 0) = .returned w ∧
      w.hermes.calls.length = 2 ∧ getCurrentlyUsedDataBufferSize w.hermes = .ok 12 ∧
      update exampleEnv 8 w = .returned w1 ∧
      w1.hermes.calls = [] ∧ getCurrentlyUsedDataBufferSize w1.hermes = .ok 0 ∧
      ∃ wd, drain exampleEnv 8 0 w = .returned wd ∧
        w1.hermes.eventMap = wd.hermes.eventMap ∧
        w1.hermes.registeredEventCount = wd.hermes.registeredEventCount ∧
        w1.hermes.maxAvailableEventTypeCount = wd.hermes.maxAvailableEventTypeCount ∧
        w1.hermes.events = wd.hermes.events ∧ w1.user = wd.user := by
  refine ⟨_, _, rfl, rfl, rfl, rfl, ?_⟩
  exact update_post_state exampleEnv 8 _ _ rfl

/-- C9 on the example: `"Heal"` was never registered and fails, `"Damage"`
resolves to the id `registerEvent` returned. -/
theorem getEventIndex_registered_witness :
    ∃ w, runOps exampleEnv (exampleSetup ++ [Op.update 8]) (World.start 0) = .returned w ∧
      ((getEventIndex w.hermes "Heal" = .error (.assertion "unknown event name") ↔
          ∀ id, ("Heal", id) ∉ registrations w.log) ∧
        ∀ id, ("Heal", id) ∈ registrations w.log →
          getEventIndex w.hermes "Heal" = .ok (id, w.hermes)) ∧
      getEventIndex w.hermes "Heal" = .error (.assertion "unknown event name") ∧
      getEventIndex w.hermes "Damage" = .ok (0, w.hermes) := by
  refine ⟨_, rfl, ?_, rfl, rfl⟩
  exact getEventIndex_registered exampleEnv (exampleSetup ++ [Op.update 8]) 0 _ rfl "Heal"

/-- C10.  `subscribe(id, subscribedInstance, callback)` stores the method
pointer and the kind only: whatever receiver is given, the callback entry is
the one a null receiver gives.  In the example, the method subscribed with the
instance at address 5 is called by `update` with a null receiver. -/
theorem subscribeMethod_drops_receiver :
    (∀ (h : Hermes) (id : EventID) (r : Ptr) (m : Nat),
        subscribeMethod h id r m = subscribeMethod h id none m) ∧
      ∃ w w1, runOps exampleEnv methodSetup (World.start 0) = .returned w ∧
        callbacksOf w.hermes 0 =
          .ok [{ callback := 7, type := .Method, subscribedInstance := none }] ∧
        update exampleEnv 8 w = .returned w1 ∧
        w1.log = w.log ++
          [.dispatch { id := 0, data := none }, .method 7 none none false] :=
  ⟨fun _ _ _ _ => rfl, _, _, rfl, rfl, rfl, rfl⟩

/-! ## The checks of `triggerEvent` -/

/-- The packing of `t, args...` from `offset` on succeeds exactly when the
last byte stays inside the range of `maxSize` bytes; otherwise it stops at
the `data overflow` assertion. -/
theorem __convert_checks (data maxSize : Nat) (args : List Arg) :
    ∀ (mem : List Nat) (offset : Nat) (t : Arg),
      (offset + ((t :: args).map List.length).sum ≤ maxSize →
        ∃ mem1, __convert mem data offset maxSize t args = .ok mem1) ∧
      (maxSize < offset + ((t :: args).map List.length).sum →
        __convert mem data offset maxSize t args = .error (.assertion "data overflow")) := by
  induction args with
  | nil =>
    intro mem offset t
    simp only [List.map_cons, List.map_nil, List.sum_cons, List.sum_nil, Nat.add_zero]
    constructor
    · intro hle
      exact ⟨writeBytes mem (data + offset) t, by simp [__convert, hle]⟩
    · intro hlt
      simp [__convert, Nat.not_le.mpr hlt]
  | cons a rest ih =>
    intro mem offset t
    simp only [List.map_cons, List.sum_cons]
    have ih1 := ih (writeBytes mem (data + offset) t) (offset + t.length) a
    simp only [List.map_cons, List.sum_cons] at ih1
    by_cases hfit : offset + t.length ≤ maxSize
    · constructor
      · intro hle
        obtain ⟨mem1, hm⟩ := ih1.1 (by omega)
        exact ⟨mem1, by simp [__convert, hfit, hm]⟩
      · intro hlt
        simp [__convert, hfit, ih1.2 (by omega)]
    · constructor
      · intro hle
        omega
      · intro _
        simp [__convert, hfit]

/-- With room in the arena, `_convert(size, t, args...)` returns exactly when
the arguments take at most `size` bytes, and otherwise stops at the
`data overflow` assertion. -/
theorem _convert_checks (h : Hermes) (size : Nat) (t : Arg) (args : List Arg)
    (buf : StackAllocator) (hbuf : h.dataBuffer = some buf)
    (hroom : buf.usedSize + size ≤ buf.maxSize) :
    (((t :: args).map List.length).sum ≤ size →
        ∃ h1, _convert h size t args = .ok (some buf.usedSize, h1) ∧
          h1.dataBuffer.map StackAllocator.getCurrentUsedSize = some (buf.usedSize + size)) ∧
      (size < ((t :: args).map List.length).sum →
        _convert h size t args = .error (.assertion "data overflow")) := by
  have hc := __convert_checks buf.usedSize size args buf.memory 0 t
  simp only [Nat.zero_add] at hc
  constructor
  · intro hle
    obtain ⟨mem1, hm⟩ := hc.1 hle
    refine ⟨{ h with
      dataBuffer := some { buf with usedSize := buf.usedSize + size, memory := mem1 } },
      by simp [_convert, hbuf, StackAllocator.push, hroom, hm], rfl⟩
  · intro hlt
    simp [_convert, hbuf, StackAllocator.push, hroom, hc.2 hlt]

/-- C12.  For an event record with payload size `S` and room for `S` bytes in
the arena, `triggerEvent(id, t, args...)` stops at the `data overflow`
assertion exactly when the arguments take more than `S` bytes. -/
theorem triggerEvent_data_overflow_iff (h : Hermes) (id : EventID) (t : Arg)
    (args : List Arg) (event : EventType) (buf : StackAllocator)
    (hevent : eventAt h id = .ok event) (hbuf : h.dataBuffer = some buf)
    (hroom : buf.usedSize + event.dataSize ≤ buf.maxSize) :
    triggerEvent h id t args = .error (.assertion "data overflow") ↔
      event.dataSize < ((t :: args).map List.length).sum := by
  have hc := _convert_checks h event.dataSize t args buf hbuf hroom
  constructor
  · intro hr
    by_contra hn
    obtain ⟨h1, hok, _⟩ := hc.1 (Nat.le_of_not_lt hn)
    simp only [triggerEvent, hevent, hok, _triggerEvent] at hr
    split at hr <;> simp at hr
  · intro hlt
    simp [triggerEvent, hevent, hc.2 hlt]

/-- C12 on the example event of 6 bytes: eight bytes of arguments trip the
assertion, six bytes do not. -/
theorem triggerEvent_data_overflow_iff_witness :
    ∃ h0, registerEvent (initializeInstance instance0 4 16) "Damage" 6 = .ok (0, h0) ∧
      (triggerEvent h0 0 (littleEndian 4 50) [littleEndian 4 7] =
          .error (.assertion "data overflow") ↔
        6 < ((littleEndian 4 50 :: [littleEndian 4 7]).map List.length).sum) ∧
      triggerEvent h0 0 (littleEndian 4 50) [littleEndian 4 7] =
        .error (.assertion "data overflow") ∧
      triggerEvent h0 0 (littleEndian 4 50) [littleEndian 2 7] ≠
        .error (.assertion "data overflow") := by
  refine ⟨_, rfl, ?_, rfl, by decide⟩
  exact triggerEvent_data_overflow_iff _ 0 (littleEndian 4 50) [littleEndian 4 7]
    { id := 0, dataSize := 6, callbacks := some [] } (StackAllocator.create 16) rfl rfl
    (by decide)

/-- C11.  For an id that is not below `registeredEventCount`,
`triggerEvent(id)` stops at the range assertion; `triggerEvent(id, t,
args...)` first reads `events[id].dataSize` and runs `_convert` with it, and
reaches the range assertion only when `_convert` has returned, that is after
the payload bytes were acquired from the arena and filled. -/
theorem triggerEvent_range_check_last (h : Hermes) (id : EventID) (t : Arg)
    (args : List Arg) (event : EventType) (hevent : eventAt h id = .ok event)
    (hid : h.registeredEventCount ≤ id) :
    triggerEvent0 h id = .error (.assertion "event type overflow") ∧
      triggerEvent h id t args =
        match _convert h event.dataSize t args with
        | .error f => .error f
        | .ok _ => .error (.assertion "event type overflow") := by
  constructor
  · simp [triggerEvent0, _triggerEvent, Nat.not_lt.mpr hid]
  · simp only [triggerEvent, hevent]
    cases hc : _convert h event.dataSize t args with
    | error f => rfl
    | ok p =>
      obtain ⟨data, h1⟩ := p
      have hcnt := (_convert_effect _ _ _ _ _ _ hc).2.2.2.1
      simp [_triggerEvent, hcnt, Nat.not_lt.mpr hid]

/-- C11 on a registry of capacity 2 holding one event of 4 bytes: the trigger
of the unregistered id 1 with an `int32` stops at the `data overflow`
assertion of the packing, which read the payload size 0 of `events[1]`, and
not at the range assertion. -/
theorem triggerEvent_range_check_last_witness :
    ∃ h0, registerEvent (initializeInstance instance0 2 16) "a" 4 = .ok (0, h0) ∧
      h0.registeredEventCount = 1 ∧
      triggerEvent0 h0 1 = .error (.assertion "event type overflow") ∧
      triggerEvent h0 1 (littleEndian 4 0) [] = .error (.assertion "data overflow") := by
  refine ⟨_, rfl, rfl, ?_⟩
  have hw := triggerEvent_range_check_last
    { events := some [{ id := 0, dataSize := 4, callbacks := some [] },
                      { callbacks := some [] }]
      dataBuffer := some (StackAllocator.create 16)
      eventMap := [("a", 0)]
      registeredEventCount := 1
      maxAvailableEventTypeCount := 2 }
    1 (littleEndian 4 0) [] { callbacks := some [] } rfl (by decide)
  exact ⟨hw.1, hw.2⟩

/-! ## Calls without payload, and the empty queue -/

theorem payload_obs (cb : EventCallback) (data : Ptr) (b : Bool) :
    (cb.obs data b).payload = some data := by
  cases ht : cb.type <;> simp [EventCallback.obs, ht, Obs.payload]

theorem payload_of_mem_zipWith (data : Ptr) (l : List EventCallback) :
    ∀ (flags : List Bool) (o : Obs),
      o ∈ List.zipWith (fun cb b => cb.obs data b) l flags → o.payload = some data := by
  induction l with
  | nil => intro flags o ho; simp at ho
  | cons cb rest ih =>
    intro flags o ho
    cases flags with
    | nil => simp at ho
    | cons b bs =>
      simp only [List.zipWith_cons_cons, List.mem_cons] at ho
      rcases ho with rfl | ho
      · exact payload_obs cb data b
      · exact ih bs o ho

/-- C13.  For a registered id, `triggerEvent(id)` returns, leaves the arena
as it is (no bytes acquired) and appends a call with a null payload; and when
the inner loop of `update` returns for such a call, every handler it invoked
received the null pointer as its payload. -/
theorem triggerEvent0_null_payload {σ : Type} (h : Hermes) (id : EventID)
    (hid : id < h.registeredEventCount) :
    triggerEvent0 h id = .ok { h with calls := h.calls ++ [{ id := id, data := none }] } ∧
      (∀ h1, triggerEvent0 h id = .ok h1 →
        h1.dataBuffer = h.dataBuffer ∧
        getCurrentlyUsedDataBufferSize h1 = getCurrentlyUsedDataBufferSize h) ∧
      ∀ (env : Env σ) (fuel : Nat) (w w1 : World σ),
        dispatch env fuel { id := id, data := none } 0 w = .returned w1 →
        ∃ extra, w1.log = w.log ++ extra ∧ ∀ o ∈ invocations extra, o.payload = some none := by
  have h0 : triggerEvent0 h id =
      .ok { h with calls := h.calls ++ [{ id := id, data := none }] } := by
    simp [triggerEvent0, _triggerEvent, hid]
  refine ⟨h0, ?_, ?_⟩
  · intro h1 hr
    rw [h0] at hr
    cases hr
    exact ⟨rfl, rfl⟩
  · intro env fuel w w1 hrun
    obtain ⟨cbs, more, extra, flags, _, _, _, hlog, hinv, _⟩ :=
      dispatch_from env fuel { id := id, data := none } 0 w w1 hrun
    refine ⟨extra, hlog, ?_⟩
    intro o ho
    rw [hinv] at ho
    exact payload_of_mem_zipWith none _ flags o ho

theorem Call.exec_arena (c : Call) (h h1 : Hermes) (r : Reply) (hr : c.exec h = .ok (r, h1)) :
    (h1.calls = h.calls ∧ h1.dataBuffer = h.dataBuffer) ∨ h1.calls ≠ [] := by
  cases c with
  | registerEvent name dataSize =>
    simp only [Call.exec] at hr
    split at hr
    · rename_i id h2 hreg
      simp only [Except.ok.injEq, Prod.mk.injEq] at hr
      obtain ⟨_, rfl⟩ := hr
      obtain ⟨hcalls, hbuf, _⟩ := registerEvent_effect _ _ _ _ _ hreg
      exact Or.inl ⟨hcalls, hbuf⟩
    · simp at hr
  | getEventIndex name =>
    simp only [Call.exec] at hr
    split at hr
    · rename_i id h2 hget
      simp only [Except.ok.injEq, Prod.mk.injEq] at hr
      obtain ⟨_, rfl⟩ := hr
      obtain ⟨rfl, _⟩ := getEventIndex_effect _ _ _ _ hget
      exact Or.inl ⟨rfl, rfl⟩
    · simp at hr
  | triggerEvent id t args =>
    simp only [Call.exec] at hr
    split at hr
    · rename_i h2 htr
      simp only [Except.ok.injEq, Prod.mk.injEq] at hr
      obtain ⟨_, rfl⟩ := hr
      obtain ⟨⟨data, hcalls⟩, _⟩ := triggerEvent_effect _ _ _ _ _ htr
      exact Or.inr (by rw [hcalls]; simp)
    · simp at hr
  | triggerEvent0 id =>
    simp only [Call.exec] at hr
    split at hr
    · rename_i h2 htr
      simp only [Except.ok.injEq, Prod.mk.injEq] at hr
      obtain ⟨_, rfl⟩ := hr
      obtain ⟨rfl, _⟩ := _triggerEvent_effect _ _ _ _ htr
      exact Or.inr (by simp)
    · simp at hr
  | subscribe id callback =>
    simp only [Call.exec] at hr
    split at hr
    · rename_i h2 hsub
      simp only [Except.ok.injEq, Prod.mk.injEq] at hr
      obtain ⟨_, rfl⟩ := hr
      obtain ⟨_, hpush⟩ := subscribe_effect _ _ _ _ hsub
      obtain ⟨hcalls, hbuf, _⟩ := pushCallback_effect _ _ _ _ hpush
      exact Or.inl ⟨hcalls, hbuf⟩
    · simp at hr
  | subscribeMethod id subscribedInstance callback =>
    simp only [Call.exec] at hr
    split at hr
    · rename_i h2 hsub
      simp only [Except.ok.injEq, Prod.mk.injEq] at hr
      obtain ⟨_, rfl⟩ := hr
      obtain ⟨_, hpush⟩ := subscribeMethod_effect _ _ _ _ _ hsub
      obtain ⟨hcalls, hbuf, _⟩ := pushCallback_effect _ _ _ _ hpush
      exact Or.inl ⟨hcalls, hbuf⟩
    · simp at hr
  | convert ptr size sizes =>
    simp only [Call.exec] at hr
    split at hr
    · simp only [Except.ok.injEq, Prod.mk.injEq] at hr
      rw [← hr.2]
      exact Or.inl ⟨rfl, rfl⟩
    · simp at hr
  | getRegisteredEventCount =>
    simp only [Call.exec, Except.ok.injEq, Prod.mk.injEq] at hr
    rw [← hr.2]
    exact Or.inl ⟨rfl, rfl⟩
  | getMaxEventTypeCount =>
    simp only [Call.exec, Except.ok.injEq, Prod.mk.injEq] at hr
    rw [← hr.2]
    exact Or.inl ⟨rfl, rfl⟩
  | getMaxDataBufferSize =>
    simp only [Call.exec] at hr
    split at hr
    · simp only [Except.ok.injEq, Prod.mk.injEq] at hr
      rw [← hr.2]
      exact Or.inl ⟨rfl, rfl⟩
    · simp at hr
  | getCurrentlyUsedDataBufferSize =>
    simp only [Call.exec] at hr
    split at hr
    · simp only [Except.ok.injEq, Prod.mk.injEq] at hr
      rw [← hr.2]
      exact Or.inl ⟨rfl, rfl⟩
    · simp at hr

theorem ArenaIdle.after_op {σ : Type} (env : Env σ) (op : Op) (w w1 : World σ)
    (hs : ArenaIdle w.hermes) (hrun : op.run env w = .returned w1) : ArenaIdle w1.hermes := by
  cases op with
  | init eventTypeCount bufferSize =>
    simp only [Op.run, Outcome.returned.injEq] at hrun
    subst hrun
    intro buf hbuf _
    simp only [initializeInstance, Option.some.injEq] at hbuf
    rw [← hbuf]
    rfl
  | shutdown =>
    simp only [Op.run] at hrun
    cases hsd : Hermes.shutdown w.hermes with
    | error f => simp [hsd] at hrun
    | ok h1 =>
      simp only [hsd, Outcome.returned.injEq] at hrun
      subst hrun
      rw [shutdown_effect _ _ hsd]
      intro buf hbuf _
      simp at hbuf
  | call c =>
    simp only [Op.run] at hrun
    split at hrun
    · rename_i r h hexec
      simp only [Outcome.returned.injEq] at hrun
      subst hrun
      rcases Call.exec_arena c _ _ r hexec with ⟨hcalls, hbuf⟩ | hne
      · intro buf hb he
        exact hs buf (by rw [← hbuf]; exact hb) (by rw [← hcalls]; exact he)
      · intro buf _ he
        exact absurd he hne
    · simp at hrun
  | update fuel =>
    simp only [Op.run] at hrun
    obtain ⟨wd, buf, _, _, rfl⟩ := update_returned env fuel w w1 hrun
    intro buf1 hb _
    simp only [Option.some.injEq] at hb
    rw [← hb]
    rfl

theorem ArenaIdle.after_ops {σ : Type} (env : Env σ) (ops : List Op) :
    ∀ (w w1 : World σ), ArenaIdle w.hermes → runOps env ops w = .returned w1 →
      ArenaIdle w1.hermes := by
  induction ops with
  | nil =>
    intro w w1 hs hrun
    simp only [runOps, Outcome.returned.injEq] at hrun
    subst hrun
    exact hs
  | cons op rest ih =>
    intro w w1 hs hrun
    simp only [runOps] at hrun
    cases hop : op.run env w with
    | returned w0 =>
      simp only [hop] at hrun
      exact ih w0 w1 (ArenaIdle.after_op env op w w0 hs hop) hrun
    | fatal f => simp [hop] at hrun
    | unfinished => simp [hop] at hrun

/-- C14.  In every state a host program reaches (by `initialize`,
`registerEvent`, `subscribe`, `triggerEvent`, `update` and the other
interface calls, none of which failed), if the arena is allocated and the
queue is empty then no arena byte is in use, and `update` returns the state
it was given: no handler is invoked and nothing changes. -/
theorem update_empty_queue {σ : Type} (env : Env σ) (ops : List Op) (user : σ)
    (w : World σ) (buf : StackAllocator)
    (hrun : runOps env ops (World.start user) = .returned w)
    (hbuf : w.hermes.dataBuffer = some buf) (hempty : w.hermes.calls = []) :
    buf.usedSize = 0 ∧ getCurrentlyUsedDataBufferSize w.hermes = .ok 0 ∧
      ∀ fuel, 0 < fuel → update env fuel w = .returned w := by
  have hidle : ArenaIdle w.hermes :=
    ArenaIdle.after_ops env ops (World.start user) w
      (fun buf hb _ => by simp [World.start, instance0] at hb) hrun
  have hused : buf.usedSize = 0 := hidle buf hbuf hempty
  refine ⟨hused, by simp [getCurrentlyUsedDataBufferSize, hbuf,
    StackAllocator.getCurrentUsedSize, hused], ?_⟩
  intro fuel hfuel
  obtain ⟨fuel, rfl⟩ : ∃ n, fuel = n + 1 := ⟨fuel - 1, by omega⟩
  have hclear : buf.clear = buf := by
    cases buf
    simp only [StackAllocator.clear]
    simp only at hused
    rw [hused]
  have hh : ({ w.hermes with calls := [], dataBuffer := some buf.clear } : Hermes) =
      w.hermes := by
    rw [hclear, ← hbuf, ← hempty]
  simp only [update, drain, hempty, List.get?_nil, clearAll, hbuf]
  rw [hh]

/-- C13 on an event without payload: the trigger leaves the arena alone and
queues a null payload, which is what the subscribed function receives. -/
theorem triggerEvent0_null_payload_witness :
    ∃ w w1 w2, runOps exampleEnv [.init 1 8, .call (.registerEvent "Tick" 0),
        .call (.subscribe 0 0)] (World.start 0) = .returned w ∧
      triggerEvent0 w.hermes 0 =
        .ok { w.hermes with calls := [{ id := 0, data := none }] } ∧
      runOps exampleEnv [.call (.triggerEvent0 0)] w = .returned w1 ∧
      getCurrentlyUsedDataBufferSize w1.hermes = .ok 0 ∧
      update exampleEnv 8 w1 = .returned w2 ∧
      w2.log = w1.log ++ [.dispatch { id := 0, data := none }, .function 0 none false] := by
  refine ⟨_, _, _, rfl, ?_, rfl, rfl, rfl, rfl⟩
  exact And.left (@triggerEvent0_null_payload Nat _ 0 (by decide))

/-- C14 on the example: after the `update` that drained the queue, a second
`update` returns the state unchanged. -/
theorem update_empty_queue_witness :
    ∃ w, runOps exampleEnv (exampleSetup ++ [Op.update 8]) (World.start 0) = .returned w ∧
      w.hermes.calls = [] ∧
      (∃ buf, w.hermes.dataBuffer = some buf ∧ buf.usedSize = 0) ∧
      getCurrentlyUsedDataBufferSize w.hermes = .ok 0 ∧
      ∀ fuel, 0 < fuel → update exampleEnv fuel w = .returned w := by
  refine ⟨_, rfl, rfl, ⟨_, rfl, rfl⟩, ?_⟩
  exact And.right (update_empty_queue exampleEnv (exampleSetup ++ [Op.update 8]) 0 _ _
    rfl rfl rfl)

/-! ## Range checks, teardown and re-registration -/

theorem pushCallback_no_assertion (h : Hermes) (id : EventID) (cb : EventCallback)
    (msg : String) : pushCallback h id cb ≠ .error (.assertion msg) := by
  unfold pushCallback
  split
  · simp
  · split
    · simp
    · split <;> simp

/-- C19.  The range check of `subscribe`, in both overloads, fails exactly
when `id` is above `registeredEventCount`: the id `registeredEventCount`
itself, which no event was registered with, passes.  In the example a
function is subscribed to id 0 of a registry that holds no event. -/
theorem subscribe_range_check :
    (∀ (h : Hermes) (id : EventID) (callback : Nat),
        subscribe h id callback = .error (.assertion "event type overflow") ↔
          h.registeredEventCount < id) ∧
      (∀ (h : Hermes) (id : EventID) (r : Ptr) (callback : Nat),
        subscribeMethod h id r callback = .error (.assertion "event type overflow") ↔
          h.registeredEventCount < id) ∧
      ∃ h1, (initializeInstance instance0 2 0).registeredEventCount = 0 ∧
        subscribe (initializeInstance instance0 2 0) 0 5 = .ok h1 ∧
        callbacksOf h1 0 = .ok [{ callback := 5, type := .Function }] := by
  refine ⟨?_, ?_, _, rfl, rfl, rfl⟩
  · intro h id callback
    unfold subscribe
    by_cases hid : h.registeredEventCount ≥ id
    · simp only [hid, if_true]
      constructor
      · intro hr
        exact absurd hr (pushCallback_no_assertion _ _ _ _)
      · intro hlt
        exact absurd hid (Nat.not_le.mpr hlt)
    · simp only [hid, if_false, true_iff]
      exact Nat.lt_of_not_le hid
  · intro h id r callback
    unfold subscribeMethod
    by_cases hid : h.registeredEventCount ≥ id
    · simp only [hid, if_true]
      constructor
      · intro hr
        exact absurd hr (pushCallback_no_assertion _ _ _ _)
      · intro hlt
        exact absurd hid (Nat.not_le.mpr hlt)
    · simp only [hid, if_false, true_iff]
      exact Nat.lt_of_not_le hid

theorem triggerEvent0_returns (h : Hermes) (id : EventID)
    (hid : id < h.registeredEventCount) : ∃ h1, triggerEvent0 h id = .ok h1 :=
  ⟨{ h with calls := h.calls ++ [{ id := id, data := none }] },
    by simp [triggerEvent0, _triggerEvent, hid]⟩

/-- C16, as stated, fails: after `initialize(1, 0)`, `registerEvent("a", 0)`
(id 0) and `shutdown()`, the name still resolves to 0, id 0 still passes the
range check of `triggerEvent`, and the registered count is still 1; the same
holds after a following `initialize(1, 0)`. -/
theorem shutdown_keeps_ids :
    ∃ h h1, registerEvent (initializeInstance instance0 1 0) "a" 0 = .ok (0, h) ∧
      shutdown h = .ok h1 ∧
      getEventIndex h1 "a" = .ok (0, h1) ∧
      (∃ h2, triggerEvent0 h1 0 = .ok h2) ∧
      getRegisteredEventCount h1 = 1 ∧
      getEventIndex (initializeInstance h1 1 0) "a" = .ok (0, initializeInstance h1 1 0) ∧
      (∃ h2, triggerEvent0 (initializeInstance h1 1 0) 0 = .ok h2) ∧
      getRegisteredEventCount (initializeInstance h1 1 0) = 1 :=
  ⟨_, _, rfl, rfl, rfl, ⟨_, rfl⟩, rfl, rfl, ⟨_, rfl⟩, rfl⟩

/-- C16, as amended.  `shutdown()` sets the record array and the arena to
null and leaves the name map, the registered count and the queue as they are,
and a following `initialize` allocates new records and a new arena without
touching them either: a name registered with id `i` still resolves to `i`,
`i` still passes the range check of `triggerEvent`, and
`getRegisteredEventCount()` is unchanged, after `shutdown()` and after a
following `initialize`. -/
theorem shutdown_leaves_registry (h h1 : Hermes) (name : String) (i : EventID)
    (eventTypeCount bufferSize : Nat)
    (hsd : shutdown h = .ok h1) (hreg : h.eventMap.lookup name = some i)
    (hi : i < h.registeredEventCount) :
    h1.events = none ∧ h1.dataBuffer = none ∧
      h1.eventMap = h.eventMap ∧ h1.calls = h.calls ∧
      getEventIndex h1 name = .ok (i, h1) ∧
      (∃ h2, triggerEvent0 h1 i = .ok h2) ∧
      getRegisteredEventCount h1 = getRegisteredEventCount h ∧
      getEventIndex (initializeInstance h1 eventTypeCount bufferSize) name =
        .ok (i, initializeInstance h1 eventTypeCount bufferSize) ∧
      (∃ h2, triggerEvent0 (initializeInstance h1 eventTypeCount bufferSize) i = .ok h2) ∧
      getRegisteredEventCount (initializeInstance h1 eventTypeCount bufferSize) =
        getRegisteredEventCount h := by
  have he := shutdown_effect h h1 hsd
  subst he
  refine ⟨rfl, rfl, rfl, rfl, ?_, triggerEvent0_returns _ i hi, rfl, ?_,
    triggerEvent0_returns _ i hi, rfl⟩
  · simp [getEventIndex, hreg]
  · simp [getEventIndex, initializeInstance, hreg]

/-- C16 as amended, on a registry holding the name `"a"` with id 0. -/
theorem shutdown_leaves_registry_witness :
    ∃ h h1, registerEvent (initializeInstance instance0 1 0) "a" 0 = .ok (0, h) ∧
      shutdown h = .ok h1 ∧
      h1.events = none ∧ h1.dataBuffer = none ∧
      h1.eventMap = h.eventMap ∧ h1.calls = h.calls ∧
      getEventIndex h1 "a" = .ok (0, h1) ∧
      (∃ h2, triggerEvent0 h1 0 = .ok h2) ∧
      getRegisteredEventCount h1 = getRegisteredEventCount h ∧
      getEventIndex (initializeInstance h1 3 8) "a" = .ok (0, initializeInstance h1 3 8) ∧
      (∃ h2, triggerEvent0 (initializeInstance h1 3 8) 0 = .ok h2) ∧
      getRegisteredEventCount (initializeInstance h1 3 8) = getRegisteredEventCount h := by
  refine ⟨_, _, rfl, rfl, ?_⟩
  exact shutdown_leaves_registry _ _ "a" 0 3 8 rfl rfl (by decide)

/-- C18.  For a name the map holds with id `id`, whose record holds the
payload size `s1`: `registerEvent(name, s2)`, whenever it returns, returns
`id` and leaves the whole instance as it was, so the record still holds `s1`,
every record and callback list is the same and every later `triggerEvent` is
checked as before; and it does return while `registeredEventCount` is not
above the capacity. -/
theorem registerEvent_keeps_payload_size (h : Hermes) (name : String) (s1 s2 : Nat)
    (id : EventID) (event : EventType)
    (hknown : h.eventMap.lookup name = some id)
    (hevent : eventAt h id = .ok event) (hsize : event.dataSize = s1) :
    (∀ r h1, registerEvent h name s2 = .ok (r, h1) →
        r = id ∧ h1 = h ∧ h1.events = h.events ∧
        (∃ e, eventAt h1 id = .ok e ∧ e.dataSize = s1) ∧
        ∀ t args, triggerEvent h1 id t args = triggerEvent h id t args) ∧
      (h.registeredEventCount ≤ h.maxAvailableEventTypeCount →
        registerEvent h name s2 = .ok (id, h)) := by
  constructor
  · intro r h1 hr
    rcases registerEvent_map h h1 name s2 r hr with ⟨hk, rfl⟩ | ⟨hk, _⟩
    · rw [hknown] at hk
      cases hk
      exact ⟨rfl, rfl, rfl, ⟨event, hevent, hsize⟩, fun _ _ => rfl⟩
    · rw [hknown] at hk
      cases hk
  · intro hcount
    exact registerEvent_known h name s2 id hcount hknown

/-- C18 on the example event: registered with 6 bytes, registered again with
4, the record still holds 6. -/
theorem registerEvent_keeps_payload_size_witness :
    ∃ h, registerEvent (initializeInstance instance0 4 16) "Damage" 6 = .ok (0, h) ∧
      registerEvent h "Damage" 4 = .ok (0, h) ∧
      eventAt h 0 = .ok { id := 0, dataSize := 6, callbacks := some [] } := by
  have hw := registerEvent_keeps_payload_size
    { events := some [{ id := 0, dataSize := 6, callbacks := some [] },
                      { callbacks := some [] }, { callbacks := some [] },
                      { callbacks := some [] }]
      dataBuffer := some (StackAllocator.create 16)
      eventMap := [("Damage", 0)]
      registeredEventCount := 1
      maxAvailableEventTypeCount := 4 }
    "Damage" 6 4 0 { id := 0, dataSize := 6, callbacks := some [] } rfl rfl rfl
  exact ⟨_, rfl, hw.2 (by decide), rfl⟩

/-! ## Payload layouts -/

theorem addAll_size (sizes : List Nat) :
    ∀ (layout : DataLayout) (sizeofT : Nat),
      (layout.addAll sizeofT sizes).size = (layout.size + sizeofT + sizes.sum) % 2 ^ 16 := by
  induction sizes with
  | nil =>
    intro layout sizeofT
    simp [DataLayout.addAll, DataLayout.add]
  | cons a rest ih =>
    intro layout sizeofT
    rw [DataLayout.addAll, ih]
    simp only [DataLayout.add, List.sum_cons]
    rw [Nat.add_assoc ((layout.size + sizeofT) % 2 ^ 16), Nat.mod_add_mod, Nat.add_assoc]

theorem storeRecord_getElem?_self (evs : List EventType) (i a b : Nat) :
    ∃ e, (storeRecord evs i a b)[i]? = some e ∧ e.id = a ∧ e.dataSize = b := by
  unfold storeRecord
  split
  · rename_i hi
    refine ⟨{ evs[i] with id := a, dataSize := b }, ?_, rfl, rfl⟩
    rw [List.getElem?_modify, List.getElem?_eq_getElem hi]
    simp
  · rename_i hi
    refine ⟨EventType.mk a b none, ?_, rfl, rfl⟩
    rw [List.getElem?_append_right (by simp; omega)]
    have hz : i - (evs ++ List.replicate (i - evs.length) (EventType.mk 0 0 none)).length = 0 := by
      simp
      omega
    rw [hz]
    rfl

/-- Arguments that take no more bytes than the payload size of the record
never stop at the `data overflow` assertion, whatever the state of the
arena. -/
theorem triggerEvent_fits (h : Hermes) (id : EventID) (t : Arg) (args : List Arg)
    (event : EventType) (hevent : eventAt h id = .ok event)
    (hfit : ((t :: args).map List.length).sum ≤ event.dataSize) :
    triggerEvent h id t args ≠ .error (.assertion "data overflow") := by
  simp only [triggerEvent, hevent, _convert]
  cases hb : h.dataBuffer with
  | none => simp
  | some buf =>
    simp only [StackAllocator.push]
    by_cases hroom : buf.usedSize + event.dataSize ≤ buf.maxSize
    · simp only [hroom, if_true]
      obtain ⟨mem1, hm⟩ := (__convert_checks buf.usedSize event.dataSize args buf.memory 0 t).1
        (by simpa using hfit)
      simp only [hm, _triggerEvent]
      split <;> simp
    · simp [hroom]

/-- C20.  `DataLayout::construct<T, Args...>()` has the size of the types'
sizes summed modulo `2 ^ 16`.  Below `2 ^ 16` that is the sum itself: a new
event registered with the layout stores it as its payload size, and a trigger
of a record with that payload size, with arguments of exactly those sizes,
packs exactly the payload size and never stops at the `data overflow`
assertion.  From `2 ^ 16` on the size of the layout is smaller than the
bytes of the arguments. -/
theorem layout_size_agrees (sizeofT : Nat) (sizes : List Nat) :
    (DataLayout.construct sizeofT sizes).size = (sizeofT + sizes.sum) % 2 ^ 16 ∧
      (sizeofT + sizes.sum < 2 ^ 16 →
        (DataLayout.construct sizeofT sizes).size = sizeofT + sizes.sum ∧
        (∀ (h : Hermes) (name : String) (evs : List EventType),
          h.registeredEventCount ≤ h.maxAvailableEventTypeCount →
          h.eventMap.lookup name = none → h.events = some evs →
          ∃ h1 e, registerEventLayout h name (DataLayout.construct sizeofT sizes) =
              .ok (h.registeredEventCount, h1) ∧
            eventAt h1 h.registeredEventCount = .ok e ∧
            e.dataSize = sizeofT + sizes.sum) ∧
        ∀ (h : Hermes) (id : EventID) (event : EventType) (t : Arg) (args : List Arg),
          eventAt h id = .ok event →
          event.dataSize = (DataLayout.construct sizeofT sizes).size →
          t.length = sizeofT → args.map List.length = sizes →
          ((t :: args).map List.length).sum = event.dataSize ∧
          triggerEvent h id t args ≠ .error (.assertion "data overflow")) ∧
      (2 ^ 16 ≤ sizeofT + sizes.sum →
        (DataLayout.construct sizeofT sizes).size < sizeofT + sizes.sum) := by
  have hsize : (DataLayout.construct sizeofT sizes).size = (sizeofT + sizes.sum) % 2 ^ 16 := by
    unfold DataLayout.construct
    rw [addAll_size]
    simp
  refine ⟨hsize, ?_, ?_⟩
  · intro hlt
    have hexact : (DataLayout.construct sizeofT sizes).size = sizeofT + sizes.sum := by
      rw [hsize, Nat.mod_eq_of_lt hlt]
    refine ⟨hexact, ?_, ?_⟩
    · intro h name evs hcount hnew hev
      obtain ⟨e, he, _, hds⟩ := storeRecord_getElem?_self evs h.registeredEventCount
        h.registeredEventCount (DataLayout.construct sizeofT sizes).size
      refine ⟨_, e, registerEvent_new h name _ evs hcount hnew hev, ?_, by rw [hds, hexact]⟩
      simp [eventAt, he]
    · intro h id event t args hevent hds ht hargs
      have hsum : ((t :: args).map List.length).sum = event.dataSize := by
        rw [hds, hexact, List.map_cons, List.sum_cons, ht, hargs]
      exact ⟨hsum, triggerEvent_fits h id t args event hevent (le_of_eq hsum)⟩
  · intro hge
    rw [hsize]
    exact lt_of_lt_of_le (Nat.mod_lt _ (by decide)) hge

/-- C20 on the layout of the example, `int32` and `uint16`: size 6, stored by
the registration, and packed exactly by a trigger with these two types; and on
a layout of two types of `2 ^ 15` bytes, whose size wraps to 0. -/
theorem layout_size_agrees_witness :
    (DataLayout.construct 4 [2]).size = 6 ∧
      (∃ h1, registerEventLayout (initializeInstance instance0 4 16) "Damage"
          (DataLayout.construct 4 [2]) = .ok (0, h1) ∧
        eventAt h1 0 = .ok { id := 0, dataSize := 6, callbacks := some [] } ∧
        triggerEvent h1 0 (littleEndian 4 50) [littleEndian 2 7] ≠
          .error (.assertion "data overflow")) ∧
      (DataLayout.construct 32768 [32768]).size = 0 := by
  have hw := (layout_size_agrees 4 [2]).2.1 (by decide)
  refine ⟨hw.1, ⟨_, rfl, rfl, ?_⟩, ?_⟩
  · exact (hw.2.2
      { events := some [{ id := 0, dataSize := 6, callbacks := some [] },
                        { callbacks := some [] }, { callbacks := some [] },
                        { callbacks := some [] }]
        dataBuffer := some (StackAllocator.create 16)
        eventMap := [("Damage", 0)]
        registeredEventCount := 1
        maxAvailableEventTypeCount := 4 }
      0 { id := 0, dataSize := 6, callbacks := some [] }
      (littleEndian 4 50) [littleEndian 2 7] rfl rfl rfl rfl).2
  · have h0 := (layout_size_agrees 32768 [32768]).1
    simpa using h0

/-! ## Handlers that subscribe during `update` -/

/-- C15, as stated, fails: function 0, invoked by `update` for the one queued
call of event 0, subscribes function 1 to event 0, and function 1 is invoked
for that same call during that same `update`. -/
theorem update_invokes_new_subscriber :
    ∃ w w1, runOps subscribingEnv tickSetup (World.start 0) = .returned w ∧
      callbacksOf w.hermes 0 = .ok [{ callback := 0, type := .Function }] ∧
      update subscribingEnv 8 w = .returned w1 ∧
      callbacksOf w1.hermes 0 =
        .ok [{ callback := 0, type := .Function }, { callback := 1, type := .Function }] ∧
      w1.log = w.log ++
        [.dispatch { id := 0, data := none },
         .function 0 none false, .function 1 none false] :=
  ⟨_, _, rfl, rfl, rfl, rfl, rfl⟩

/-- C15, as amended.  A `subscribe` that passes its checks appends the new
callback at the end of the callback list of its event, which is the list the
inner loop of `update` iterates.  Let `c` be the call at position `i` of the
queue, `cbs` the callback list of its event when the outer loop of `update`
comes to `c`, and suppose that the callbacks of `cbs`, run in order, do not
report `handled`, and that `more` are the callbacks subscribed to the event
of `c` meanwhile.  Then the loops go on, for the same call `c` and in the
same `update`, with what running `more` in order does: the callbacks of
`more` are invoked in subscription order with `c.data` until one of them
reports `handled`, all of them when none does, and `update` ends fatally where
one of these handlers does. -/
theorem update_invokes_subscribed {σ : Type} (env : Env σ) (i : Nat) (w w1 : World σ)
    (c : EventCall) (cbs more : List EventCallback)
    (hcall : w.hermes.calls.get? i = some c)
    (hcbs : callbacksOf w.hermes c.id = .ok cbs)
    (hrun : invokeList env c.data cbs { w with log := w.log ++ [.dispatch c] } =
      .ok (false, w1))
    (hmore : callbacksOf w1.hermes c.id = .ok (cbs ++ more)) :
    (∀ (h h1 : Hermes) (id : EventID) (g : Nat), subscribe h id g = .ok h1 →
        ∃ l, callbacksOf h id = .ok l ∧
          callbacksOf h1 id = .ok (l ++ [{ callback := g, type := .Function }])) ∧
    (∀ (h h1 : Hermes) (id : EventID) (receiver : Ptr) (g : Nat),
        subscribeMethod h id receiver g = .ok h1 →
        ∃ l, callbacksOf h id = .ok l ∧
          callbacksOf h1 id = .ok (l ++ [{ callback := g, type := .Method }])) ∧
    (∀ fuel,
        dispatch env (fuel + more.length + cbs.length) c 0
            { w with log := w.log ++ [.dispatch c] } =
          match invokeList env c.data more w1 with
          | .error f => .fatal f
          | .ok (true, w2) => .returned w2
          | .ok (false, w2) => dispatch env fuel c (cbs.length + more.length) w2) ∧
    (∀ fuel, drain env (fuel + more.length + cbs.length + 1) i w =
        match invokeList env c.data more w1 with
        | .error f => .fatal f
        | .ok (true, w2) => drain env (fuel + more.length + cbs.length) (i + 1) w2
        | .ok (false, w2) =>
          match dispatch env fuel c (cbs.length + more.length) w2 with
          | .returned w3 => drain env (fuel + more.length + cbs.length) (i + 1) w3
          | .fatal f => .fatal f
          | .unfinished => .unfinished) ∧
    (i = 0 → ∀ fuel,
      let rest : World σ → Outcome (World σ) := fun w2 =>
        match drain env (fuel + more.length + cbs.length) 1 w2 with
        | .returned wd =>
          (match clearAll wd.hermes with
           | .ok h => .returned { wd with hermes := h }
           | .error f => .fatal f)
        | .fatal f => .fatal f
        | .unfinished => .unfinished
      update env (fuel + more.length + cbs.length + 1) w =
        match invokeList env c.data more w1 with
        | .error f => .fatal f
        | .ok (true, w2) => rest w2
        | .ok (false, w2) =>
          match dispatch env fuel c (cbs.length + more.length) w2 with
          | .returned w3 => rest w3
          | .fatal f => .fatal f
          | .unfinished => .unfinished) ∧
    ∀ b w2, invokeList env c.data more w1 = .ok (b, w2) →
      ∃ extra flags, w2.log = w1.log ++ extra ∧
        invocations extra = List.zipWith (fun cb b => cb.obs c.data b) more flags ∧
        (b = true → ∃ k, k < more.length ∧ flags = List.replicate k false ++ [true]) ∧
        (b = false → flags = List.replicate more.length false) := by
  have hsub : SubscribedAt ({ w with log := w.log ++ [.dispatch c] } : World σ).hermes c.id 0 cbs :=
    ⟨cbs, hcbs, by simp⟩
  have hsub1 : SubscribedAt w1.hermes c.id cbs.length more := ⟨_, hmore, by simp⟩
  have hd : ∀ fuel,
      dispatch env (fuel + more.length + cbs.length) c 0
          { w with log := w.log ++ [.dispatch c] } =
        match invokeList env c.data more w1 with
        | .error f => .fatal f
        | .ok (true, w2) => .returned w2
        | .ok (false, w2) => dispatch env fuel c (cbs.length + more.length) w2 := by
    intro fuel
    have h0 := dispatch_invokeList env c cbs 0 { w with log := w.log ++ [.dispatch c] }
      (fuel + more.length) hsub
    rw [hrun] at h0
    simp only [Nat.zero_add] at h0
    rw [h0]
    exact dispatch_invokeList env c more cbs.length w1 fuel hsub1
  have hdr : ∀ fuel, drain env (fuel + more.length + cbs.length + 1) i w =
      match invokeList env c.data more w1 with
      | .error f => .fatal f
      | .ok (true, w2) => drain env (fuel + more.length + cbs.length) (i + 1) w2
      | .ok (false, w2) =>
        match dispatch env fuel c (cbs.length + more.length) w2 with
        | .returned w3 => drain env (fuel + more.length + cbs.length) (i + 1) w3
        | .fatal f => .fatal f
        | .unfinished => .unfinished := by
    intro fuel
    simp only [drain, hcall, hd fuel]
    cases hrun2 : invokeList env c.data more w1 with
    | error f => rfl
    | ok p =>
      obtain ⟨b, w2⟩ := p
      cases b <;> rfl
  refine ⟨?_, ?_, hd, hdr, ?_, ?_⟩
  · intro h h1 id g hr
    obtain ⟨_, _, _, _, _, hpush, _⟩ :=
      pushCallback_effect _ _ _ _ (subscribe_effect h h1 id g hr).2
    exact hpush
  · intro h h1 id receiver g hr
    obtain ⟨_, _, _, _, _, hpush, _⟩ :=
      pushCallback_effect _ _ _ _ (subscribeMethod_effect h h1 id receiver g hr).2
    exact hpush
  · intro hi fuel
    subst hi
    simp only [update, hdr fuel]
    cases hrun2 : invokeList env c.data more w1 with
    | error f => rfl
    | ok p =>
      obtain ⟨b, w2⟩ := p
      cases b with
      | true => rfl
      | false =>
        simp only
        cases dispatch env fuel c (cbs.length + more.length) w2 <;> rfl
  · intro b w2 hrun2
    obtain ⟨_, extra, flags, hlog, hinv, ht, hf⟩ := invokeList_effect env c.data more w1 w2 b hrun2
    exact ⟨extra, flags, hlog, hinv, ht, hf⟩

/-- C15 as amended, on the example: function 0, the one subscriber when the
call is taken from the queue, subscribes function 1 and does not report
`handled`; function 1 is then invoked for the same call, and only then does
the loop come to the end of the list and return. -/
theorem update_invokes_subscribed_witness :
    ∃ w w1 w2, runOps subscribingEnv tickSetup (World.start 0) = .returned w ∧
      w.hermes.calls.get? 0 = some { id := 0, data := none } ∧
      callbacksOf w.hermes 0 = .ok [{ callback := 0, type := .Function }] ∧
      invokeList subscribingEnv none [{ callback := 0, type := .Function }]
        { w with log := w.log ++ [.dispatch { id := 0, data := none }] } = .ok (false, w1) ∧
      callbacksOf w1.hermes 0 =
        .ok ([{ callback := 0, type := .Function }] ++ [{ callback := 1, type := .Function }]) ∧
      invokeList subscribingEnv none [{ callback := 1, type := .Function }] w1 =
        .ok (false, w2) ∧
      w2.log = w.log ++ [.dispatch { id := 0, data := none },
        .function 0 none false, .function 1 none false] ∧
      dispatch subscribingEnv 1 { id := 0, data := none } (1 + 1) w2 = .returned w2 ∧
      (∃ w3, update subscribingEnv 8 w = .returned w3 ∧ w3.log = w2.log) ∧
      ∀ fuel, dispatch subscribingEnv (fuel + 1 + 1) { id := 0, data := none } 0
          { w with log := w.log ++ [.dispatch { id := 0, data := none }] } =
        dispatch subscribingEnv fuel { id := 0, data := none } (1 + 1) w2 := by
  refine ⟨_, _, _, rfl, rfl, rfl, rfl, rfl, rfl, rfl, rfl, ⟨_, rfl, rfl⟩, ?_⟩
  exact (update_invokes_subscribed subscribingEnv 0 _ _ { id := 0, data := none }
    [{ callback := 0, type := .Function }] [{ callback := 1, type := .Function }]
    (by rfl) (by rfl) (by rfl) (by rfl)).2.2.1

/-! ## Termination of `update` -/

/-- One invocation in the livelock example: the handler appends a call of
event 0 to the queue and returns `false`. -/
theorem loopEnv_invocation (w : World Nat) (hcount : 0 < w.hermes.registeredEventCount) :
    callCallback loopEnv { callback := 0, type := .Function } none w =
      .ok (false,
        { hermes := { w.hermes with calls := w.hermes.calls ++ [{ id := 0, data := none }] }
          user := w.user
          log := w.log ++ [.triggered 0] ++ [.function 0 none false] }) := by
  simp [callCallback, loopEnv, Script.run, Call.exec, triggerEvent0, _triggerEvent, hcount,
    Call.obs]

/-- In the livelock example the outer loop of `update` never gets past the
end of the queue: at every position a call is still to be dispatched. -/
theorem drain_livelocked (fuel : Nat) :
    ∀ (i : Nat) (w : World Nat), Livelocked i w.hermes →
      drain loopEnv fuel i w = .unfinished := by
  induction fuel with
  | zero => intro i w _; rfl
  | succ fuel ih =>
    intro i w hw
    obtain ⟨hcalls, hcbs, hcount⟩ := hw
    have hget : w.hermes.calls.get? i = some { id := 0, data := none } := by
      rw [hcalls, List.get?_eq_getElem?, List.getElem?_replicate]
      simp
    simp only [drain, hget]
    cases fuel with
    | zero => rfl
    | succ fuel =>
      have hstep := loopEnv_invocation
        { w with log := w.log ++ [.dispatch { id := 0, data := none }] } hcount
      simp only [dispatch, hcbs, List.get?_cons_zero, hstep]
      cases fuel with
      | zero => rfl
      | succ fuel =>
        have hcbs1 : callbacksOf
            { w.hermes with calls := w.hermes.calls ++ [{ id := 0, data := none }] } 0 =
            .ok [{ callback := 0, type := .Function }] := by
          rw [callbacksOf_eq_of_events rfl]
          exact hcbs
        simp only [dispatch, hcbs1, List.get?_cons_succ, List.get?_nil]
        apply ih
        refine ⟨?_, hcbs1, hcount⟩
        show w.hermes.calls ++ [{ id := 0, data := none }] = _
        rw [hcalls, ← List.replicate_succ']

/-- One invocation in the self-subscribing example: the handler appends
function 0 to the callback list of event 0 and returns `false`. -/
theorem selfSubscribingEnv_invocation (j : Nat) (w : World Nat)
    (hw : Resubscribed j w.hermes) :
    ∃ w1, callCallback selfSubscribingEnv { callback := 0, type := .Function } none w =
        .ok (false, w1) ∧ Resubscribed (j + 1) w1.hermes := by
  unfold Resubscribed at hw
  refine ⟨{ hermes := { w.hermes with
              events := some
                [EventType.mk 0 0 (some (List.replicate (j + 1 + 1) ⟨0, .Function, none⟩))] }
            user := w.user
            log := w.log ++ [.function 0 none false] }, ?_, rfl⟩
  simp [callCallback, selfSubscribingEnv, Script.run, Call.exec, subscribe, pushCallback, hw,
    Call.obs, List.replicate_succ' (j + 1)]

/-- In the self-subscribing example the inner loop of `update` never gets
past the end of the callback list. -/
theorem dispatch_resubscribed (fuel : Nat) :
    ∀ (j : Nat) (w : World Nat), Resubscribed j w.hermes →
      dispatch selfSubscribingEnv fuel { id := 0, data := none } j w = .unfinished := by
  induction fuel with
  | zero => intro j w _; rfl
  | succ fuel ih =>
    intro j w hw
    obtain ⟨w1, hstep, hw1⟩ := selfSubscribingEnv_invocation j w hw
    have hcbs : callbacksOf w.hermes 0 =
        .ok (List.replicate (j + 1) { callback := 0, type := .Function }) := by
      unfold Resubscribed at hw
      simp [callbacksOf, eventAt, hw]
    have hget : (List.replicate (j + 1)
        ({ callback := 0, type := .Function } : EventCallback)).get? j =
        some { callback := 0, type := .Function } := by
      rw [List.get?_eq_getElem?, List.getElem?_replicate]
      simp
    simp only [dispatch, hcbs, hget, hstep]
    exact ih (j + 1) w1 hw1

theorem update_resubscribed (w : World Nat)
    (hcalls : w.hermes.calls = [{ id := 0, data := none }])
    (hw : Resubscribed 0 w.hermes) (fuel : Nat) :
    update selfSubscribingEnv fuel w = .unfinished := by
  cases fuel with
  | zero => rfl
  | succ fuel =>
    simp only [update, drain, hcalls, List.get?_cons_zero]
    rw [dispatch_resubscribed fuel 0
      { w with log := w.log ++ [.dispatch { id := 0, data := none }] } hw]

theorem update_livelocked (w : World Nat) (hw : Livelocked 0 w.hermes) (fuel : Nat) :
    update loopEnv fuel w = .unfinished := by
  simp only [update]
  rw [drain_livelocked fuel 0 w hw]

/-- C17, as stated, fails in its second half: in the self-subscribing example
no handler triggers an event, and yet `update` never ends, whatever the bound
on its steps, because the callback list it iterates grows by one entry at
every invocation. -/
theorem update_self_subscribing_never_ends :
    selfSubscribingEnv.Uses Call.noTrigger ∧
      ∃ w, runOps selfSubscribingEnv tickSetup (World.start 0) = .returned w ∧
        w.hermes.calls = [{ id := 0, data := none }] ∧
        ∀ fuel, update selfSubscribingEnv fuel w = .unfinished := by
  refine ⟨⟨fun _ _ _ => ⟨trivial, fun _ => trivial⟩, fun _ _ _ _ => trivial⟩, _, rfl, rfl, ?_⟩
  exact update_resubscribed _ rfl rfl

/-- C17, as amended.  In the livelock example (one event without payload, one
subscriber that triggers the same event again and returns `false`, one queued
call) `update` never ends, whatever the bound on its steps: a call is always
left to dispatch and the clearing step is not reached.  Conversely, when no
handler triggers an event or subscribes a handler, `update` ends within a
bounded number of steps, and when it returns it has dispatched exactly the
calls that were queued when it started. -/
theorem update_livelock_and_termination {σ : Type} (env : Env σ)
    (henv : env.Uses Call.quiet) (w : World σ) :
    (∃ w0, runOps loopEnv tickSetup (World.start 0) = .returned w0 ∧
        w0.hermes.calls = [{ id := 0, data := none }] ∧
        ∀ fuel, update loopEnv fuel w0 = .unfinished) ∧
      ∃ N, ∀ fuel, N ≤ fuel →
        update env fuel w ≠ .unfinished ∧
        ∀ w1, update env fuel w = .returned w1 →
          ∃ extra, w1.log = w.log ++ extra ∧ dispatched extra = w.hermes.calls := by
  constructor
  · refine ⟨_, rfl, rfl, ?_⟩
    exact update_livelocked _ ⟨rfl, rfl, by decide⟩
  · obtain ⟨N, hN⟩ := drain_quiet env henv w.hermes.calls 0 w rfl
    refine ⟨N, fun fuel hfuel => ⟨?_, ?_⟩⟩
    · simp only [update, hN fuel hfuel]
      cases flushInOrder env w.hermes.calls w with
      | error f => simp [Outcome.ofExcept]
      | ok w1 =>
        simp only [Outcome.ofExcept]
        cases clearAll w1.hermes <;> simp
    · intro w1 hrun
      obtain ⟨wd, buf, hd, _, rfl⟩ := update_returned env fuel w w1 hrun
      obtain ⟨extra, new, hlog, _, _, hdisp⟩ := drain_from env fuel 0 w wd hd
      have hsame : SameSubscriptions w.hermes wd.hermes :=
        drain_preserves env Call.quiet henv (fun h _ => SameSubscriptions w.hermes h)
          (fun c _ r _ _ hq hs hr => hs.quiet_call c hq r hr) (fun _ _ _ _ _ hs => hs)
          (fun _ _ _ hs => hs) fuel 0 w wd ⟨rfl, fun _ _ hc => hc⟩ hd
      exact ⟨extra, hlog, by rw [hdisp, hsame.1]; rfl⟩

/-- C17 as amended, on the example with handlers that neither trigger nor
subscribe: `update` ends and has dispatched the two queued calls. -/
theorem update_livelock_and_termination_witness :
    ∃ w, runOps exampleEnv exampleSetup (World.start 0) = .returned w ∧
      ((∃ w0, runOps loopEnv tickSetup (World.start 0) = .returned w0 ∧
          w0.hermes.calls = [{ id := 0, data := none }] ∧
          ∀ fuel, update loopEnv fuel w0 = .unfinished) ∧
        ∃ N, ∀ fuel, N ≤ fuel →
          update exampleEnv fuel w ≠ .unfinished ∧
          ∀ w1, update exampleEnv fuel w = .returned w1 →
            ∃ extra, w1.log = w.log ++ extra ∧ dispatched extra = w.hermes.calls) ∧
      ∃ w1, update exampleEnv 8 w = .returned w1 ∧
        dispatched (w1.log.drop w.log.length) = w.hermes.calls := by
  refine ⟨_, rfl, ?_, _, rfl, rfl⟩
  exact update_livelock_and_termination exampleEnv
    ⟨fun _ _ _ => trivial, fun _ _ _ _ => trivial⟩ _

/-! ## Handlers that trigger during `update` -/

end Hermes
